import Mathlib

/-!
# NFS storage unit of the CDN engine (`engine/cdn/storage/nfs/nfs.go`)

A shallow embedding of the NFS driver: the handles `Reader` and `Writer`, `Connect`, `Init`,
`ItemExists`, `Remove`, `NewReader`, `NewWriter` and the path helper `filename`.

Every driver operation is a function of an explicit `World` (what the exported volume holds and
the calls issued so far) and of an `Env` that fixes how the collaborators the driver calls
(the NFS client library, the operating system, the metadata store) answer.
-/

namespace CDN

/-! ## Strings and paths -/

/-- A Go `string`: a sequence of bytes, one list element per byte. -/
abbrev GoString := List Char

/-- Go slice expression `s[:n]`: the first `n` bytes; out of range (a run-time panic) when the
string is shorter. -/
def sliceTo (s : GoString) (n : Nat) : Option GoString :=
  if n ≤ s.length then some (s.take n) else none

/-- Go `strings.Split(s, "/")`. -/
def splitSep : GoString → List GoString
  | [] => [[]]
  | c :: cs =>
    if c = '/' then [] :: splitSep cs
    else match splitSep cs with
      | [] => [[c]]
      | e :: es => (c :: e) :: es

/-- Go `strings.Join(elems, "/")`. -/
def joinSep : List GoString → GoString
  | [] => []
  | [a] => a
  | a :: b :: rest => a ++ '/' :: joinSep (b :: rest)

/-- One path element processed by `filepath.Clean`; `out` holds the elements kept so far, the
most recent first. Empty and `.` elements are dropped, `..` removes the element before it when
there is one that is not itself `..`, is dropped at the root of a rooted path and is kept
otherwise. -/
def cleanStep (rooted : Bool) (out : List GoString) (elem : GoString) : List GoString :=
  if elem = [] ∨ elem = ['.'] then out
  else if elem = ['.', '.'] then
    match out with
    | [] => if rooted then [] else [elem]
    | top :: rest => if top = ['.', '.'] then elem :: out else rest
  else elem :: out

/-- Go `filepath.Clean` on Unix (standard library, path/filepath): the shortest equivalent
path by lexical processing. -/
def Clean (p : GoString) : GoString :=
  if p = [] then ['.']
  else
    let rooted := p.head? == some '/'
    let body := joinSep ((splitSep p).foldl (cleanStep rooted) []).reverse
    if rooted then '/' :: body
    else if body = [] then ['.'] else body

/-- Go `filepath.Join` on Unix: leading empty elements are skipped, the rest is joined with the
separator and cleaned; the result is empty when every element is empty. -/
def Join (elem : List GoString) : GoString :=
  match elem.dropWhile (fun e => e = []) with
  | [] => []
  | es => Clean (joinSep es)

/-! ## Errors -/

/-- A non-nil Go `error` value. `exist`, `notExist` and `backend` are what the NFS client and the
operating system return; the others are built by the `sdk` helpers and by `fmt.Errorf`. -/
inductive Error
  | exist (msg : String)
  | notExist (msg : String)
  | backend (msg : String)
  | ErrNotFound
  | errorf (msg : String)
  | withStack (root : Error)
  | wrap (root : Error) (msg : String)
  deriving DecidableEq, Repr

/-- Go `os.IsExist`. -/
def IsExist : Error → Bool
  | .exist _ => true
  | _ => false

/-- Go `os.IsNotExist`. -/
def IsNotExist : Error → Bool
  | .notExist _ => true
  | _ => false

/-- Modelled from the spec: `sdk.WithStack` is not among the sources. It attaches a stack to an
error and keeps the error itself ("driver errors are wrapped with operation and unit context");
a nil error stays nil, an error that already carries a stack is returned as it is. -/
def WithStack : Option Error → Option Error
  | none => none
  | some (.withStack root) => some (.withStack root)
  | some err => some (.withStack err)

/-- Modelled from the spec: `sdk.WrapError` is not among the sources. It wraps a (non-nil) error
with a message describing the operation. -/
def WrapError (err : Error) (msg : String) : Error := .wrap err msg

/-- The error underneath the wrappers added by `WithStack` and `WrapError`. -/
def Error.cause : Error → Error
  | .withStack root => root.cause
  | .wrap root _ => root.cause
  | err => err

/-- Modelled from the spec: `sdk.ErrorIs` is not among the sources. It tells whether an error
is of the given kind, looking through the wrappers. -/
def ErrorIs (err target : Error) : Bool := err.cause == target

/-! ## The world the driver runs in -/

/-- A call the driver makes to a collaborator, with the error it got back (`none` for nil), or
a line it logs. -/
inductive Event
  | DialMount (host : String) (err : Option Error)
  | Hostname (err : Option Error)
  | Mount (partition hostname : String) (uid gid : Nat) (err : Option Error)
  | Mkdir (path : GoString) (mode : Nat) (err : Option Error)
  | Lookup (path : GoString) (err : Option Error)
  | Remove (path : GoString) (err : Option Error)
  | Open (path : GoString) (err : Option Error)
  | OpenFile (path : GoString) (mode : Nat) (err : Option Error)
  | FileClose (path : GoString) (err : Option Error)
  | TargetClose (err : Option Error)
  | MountClose (err : Option Error)
  | ExistsInDatabase (itemID : String) (err : Option Error)
  | LogError (msg : String)
  | LogDebug (msg : String) (path : GoString)
  deriving DecidableEq, Repr

/-- State outside the driver: the paths present on the exported volume and the calls issued so
far, oldest first. -/
structure World where
  entries : List GoString
  trace : List Event
  deriving DecidableEq, Repr

/-- Type `sdk.CDNItem`, reduced to the field the driver reads. -/
structure CDNItem where
  ID : String
  deriving DecidableEq, Repr

/-- Type `sdk.CDNItemUnit`, reduced to its identifiers and the `Locator`. -/
structure CDNItemUnit where
  ID : String
  ItemID : String
  UnitID : String
  Locator : GoString
  deriving DecidableEq, Repr

/-- How the collaborators answer. `DialMount`, `Hostname`, `Mount`, `Mkdir`, `Lookup`, `Remove`,
`Open` and `OpenFile` say whether the call fails for a reason of its own (unreachable server,
permissions, ...), whatever the volume holds; the three `Close` fields are the results of closing
a file, a mount target and a dial mount; `Name` is the name a successful lookup reports;
`ExistsInDatabase` is the answer of the metadata store for an item id. -/
structure Env where
  DialMount : World → String → Option Error
  Hostname : World → Except Error String
  Mount : World → String → Option Error
  Mkdir : World → GoString → Option Error
  Lookup : World → GoString → Option Error
  Remove : World → GoString → Option Error
  Open : World → GoString → Option Error
  OpenFile : World → GoString → Option Error
  FileClose : GoString → Option Error
  TargetClose : Option Error
  MountClose : Option Error
  Name : World → GoString → String
  ExistsInDatabase : String → Except Error CDNItemUnit

/-- A computation of the driver: it reads and updates the world and yields a value, or yields
nothing when the Go code panics. -/
def M (α : Type) : Type := World → Option (α × World)

instance : Monad M where
  pure a := fun w => some (a, w)
  bind m f := fun w =>
    match m w with
    | none => none
    | some (a, w') => f a w'

/-- Run-time panic. -/
def abort {α : Type} : M α := fun _ => none

/-- Append an event to the trace. -/
def emit (e : Event) : M Unit := fun w => some ((), { w with trace := w.trace ++ [e] })

/-- Evaluate a Go expression that panics when it has no value. -/
def orAbort {α : Type} : Option α → M α
  | some a => pure a
  | none => abort

/-- Call `log.Error(ctx, msg)`. -/
def logError (msg : String) : M Unit := emit (.LogError msg)

/-- Call `log.Debug(ctx, "[%T] <msg> %s", n, path)`. -/
def logDebug (msg : String) (path : GoString) : M Unit := emit (.LogDebug msg path)

/-! ## The NFS client library, as the driver sees it -/

/-- A `*gonfs.Mount` obtained from `gonfs.DialMount`. -/
structure Mount where
  host : String
  deriving DecidableEq, Repr

/-- A `*gonfs.Target`, a mounted volume. -/
structure Target where
  partition : String
  deriving DecidableEq, Repr

/-- A non-nil `*gonfs.File`. -/
structure File where
  path : GoString
  deriving DecidableEq, Repr

/-- The `os.FileInfo` returned by a lookup. -/
structure FileInfo where
  Name : String
  deriving DecidableEq, Repr

/-- Call `gonfs.DialMount(host)`. -/
def DialMount (env : Env) (host : String) : M (Except Error Mount) := fun w =>
  match env.DialMount w host with
  | some e => some (.error e, { w with trace := w.trace ++ [.DialMount host (some e)] })
  | none => some (.ok ⟨host⟩, { w with trace := w.trace ++ [.DialMount host none] })

/-- Call `os.Hostname()`. -/
def Hostname (env : Env) : M (Except Error String) := fun w =>
  match env.Hostname w with
  | .error e => some (.error e, { w with trace := w.trace ++ [.Hostname (some e)] })
  | .ok h => some (.ok h, { w with trace := w.trace ++ [.Hostname none] })

/-- Call `dialMount.Mount(partition, auth)` with the Unix credentials `hostname`, `uid`, `gid`. -/
def Mount.mount (env : Env) (_m : Mount) (partition hostname : String) (uid gid : Nat) :
    M (Except Error Target) := fun w =>
  match env.Mount w partition with
  | some e =>
    some (.error e, { w with trace := w.trace ++ [.Mount partition hostname uid gid (some e)] })
  | none =>
    some (.ok ⟨partition⟩,
      { w with trace := w.trace ++ [.Mount partition hostname uid gid none] })

/-- Error of `target.Mkdir(path, mode)`: the failure of the call itself, or an error for which
`os.IsExist` holds when the path is already there. -/
def Env.mkdirErr (env : Env) (w : World) (path : GoString) : Option Error :=
  match env.Mkdir w path with
  | some e => some e
  | none => if path ∈ w.entries then some (.exist "file exists") else none

/-- Error of a call that needs the path to be there (`Lookup`, `Remove`, `Open`): the failure
`fault` of the call itself, or an error for which `os.IsNotExist` holds when the path is
absent. -/
def World.missingErr (w : World) (fault : Option Error) (path : GoString) : Option Error :=
  match fault with
  | some e => some e
  | none => if path ∈ w.entries then none else some (.notExist "no such file or directory")

/-- Call `target.Mkdir(path, mode)`: creates the path unless it fails. -/
def Target.Mkdir (env : Env) (_t : Target) (path : GoString) (mode : Nat) :
    M (Option Error) := fun w =>
  match env.mkdirErr w path with
  | some e => some (some e, { w with trace := w.trace ++ [.Mkdir path mode (some e)] })
  | none => some (none, { entries := path :: w.entries,
                          trace := w.trace ++ [.Mkdir path mode none] })

/-- Call `target.Lookup(path)`: succeeds only for a path that is there. -/
def Target.Lookup (env : Env) (_t : Target) (path : GoString) :
    M (Except Error FileInfo) := fun w =>
  match w.missingErr (env.Lookup w path) path with
  | some e => some (.error e, { w with trace := w.trace ++ [.Lookup path (some e)] })
  | none => some (.ok ⟨env.Name w path⟩, { w with trace := w.trace ++ [.Lookup path none] })

/-- Call `target.Remove(path)`: deletes the path unless it fails. -/
def Target.Remove (env : Env) (_t : Target) (path : GoString) : M (Option Error) := fun w =>
  match w.missingErr (env.Remove w path) path with
  | some e => some (some e, { w with trace := w.trace ++ [.Remove path (some e)] })
  | none => some (none, { entries := w.entries.filter (fun p => p ≠ path),
                          trace := w.trace ++ [.Remove path none] })

/-- Call `target.Open(path)`: a nil file and an error when it fails. -/
def Target.Open (env : Env) (_t : Target) (path : GoString) :
    M (Option File × Option Error) := fun w =>
  match w.missingErr (env.Open w path) path with
  | some e => some ((none, some e), { w with trace := w.trace ++ [.Open path (some e)] })
  | none => some ((some ⟨path⟩, none), { w with trace := w.trace ++ [.Open path none] })

/-- Call `target.OpenFile(path, mode)`: opens the file for writing, creating it when absent; a nil
file and an error when it fails. -/
def Target.OpenFile (env : Env) (_t : Target) (path : GoString) (mode : Nat) :
    M (Option File × Option Error) := fun w =>
  match env.OpenFile w path with
  | some e =>
    some ((none, some e), { w with trace := w.trace ++ [.OpenFile path mode (some e)] })
  | none =>
    some ((some ⟨path⟩, none),
      { entries := if path ∈ w.entries then w.entries else path :: w.entries,
        trace := w.trace ++ [.OpenFile path mode none] })

/-- Call of `Close` on the content stream held by a handle. The stream is a `*gonfs.File`;
the sources give no result for closing a nil one, which is modelled as a panic. -/
def File.Close (env : Env) : Option File → M (Option Error)
  | none => abort
  | some f => do
    emit (.FileClose f.path (env.FileClose f.path))
    pure (env.FileClose f.path)

/-- Call `target.Close()`. -/
def Target.Close (env : Env) (_t : Target) : M (Option Error) := do
  emit (.TargetClose env.TargetClose)
  pure env.TargetClose

/-- Call `dialMount.Close()`. -/
def Mount.Close (env : Env) (_m : Mount) : M (Option Error) := do
  emit (.MountClose env.MountClose)
  pure env.MountClose

/-! ## The driver -/

/-- Type `storage.NFSStorageConfiguration`, with the fields the driver reads. -/
structure NFSStorageConfiguration where
  Host : String
  TargetPartition : String
  UserID : Nat
  GroupID : Nat
  SubPath : GoString
  Encryption : List String
  deriving DecidableEq, Repr

/-- Type `encryption.ConvergentEncryption`, identified by the configuration it was made from. -/
structure ConvergentEncryption where
  config : List String
  deriving DecidableEq, Repr

/-- Constructor `encryption.New`. -/
def encryptionNew (cfg : List String) : ConvergentEncryption := ⟨cfg⟩

/-- The driver `Nfs`: its encryption component and its configuration (the embedded
`storage.AbstractUnit` appears through `Env.ExistsInDatabase`). -/
structure Nfs where
  ConvergentEncryption : ConvergentEncryption
  config : NFSStorageConfiguration
  deriving DecidableEq, Repr

/-- The dynamic value passed to `Init` as `interface{}`: a `*storage.NFSStorageConfiguration`
(possibly a nil pointer) or a value of any other type, named by its `%T`. -/
inductive Config
  | nfs (config : Option NFSStorageConfiguration)
  | other (typeName : String)
  deriving DecidableEq, Repr

/-- The handle `Reader` (its `ctx` is only used for logging). The stream `reader` is `none` when
it holds a nil file. -/
structure Reader where
  dialMount : Mount
  target : Target
  reader : Option File
  deriving DecidableEq, Repr

/-- The handle `Writer`. -/
structure Writer where
  dialMount : Mount
  target : Target
  writer : Option File
  deriving DecidableEq, Repr

/-- Source function `Reader.Close`. -/
def Reader.Close (env : Env) (r : Reader) : M (Option Error) := do
  let mut firstError : Option Error := none
  if let some err ← File.Close env r.reader then
    firstError := some err
    logError "reader: unable to close file"
  if let some err ← r.target.Close env then
    logError "reader: unable to close mount"
    if firstError = none then
      firstError := some err
  if let some err ← r.dialMount.Close env then
    logError "reader: unable to close DialMount "
    if firstError = none then
      firstError := some err
  return WithStack firstError

/-- Source function `Writer.Close`. -/
def Writer.Close (env : Env) (w : Writer) : M (Option Error) := do
  let mut firstError : Option Error := none
  if let some err ← File.Close env w.writer then
    firstError := some err
    logError "writer: unable to close file"
  if let some err ← w.target.Close env then
    logError "writer: unable to close mount"
    if firstError = none then
      firstError := some err
  if let some err ← w.dialMount.Close env then
    logError "writer: unable to close DialMount "
    if firstError = none then
      firstError := some err
  return WithStack firstError

/-- Source function `Nfs.Connect`: the Go triple `(dialMount, target, err)` is a pair of
non-nil pointers with a nil error, or two nil pointers with an error. -/
def Nfs.Connect (env : Env) (n : Nfs) : M (Except Error (Mount × Target)) := do
  match ← DialMount env n.config.Host with
  | .error err => pure (.error (WrapError err "unable to dial mount"))
  | .ok dialMount =>
    match ← Hostname env with
    | .error err => pure (.error (WrapError err "unable to get hostname"))
    | .ok hostname =>
      match ← dialMount.mount env n.config.TargetPartition hostname
          n.config.UserID n.config.GroupID with
      | .error err =>
        pure (.error (WrapError err ("unable to mount volume " ++ n.config.TargetPartition)))
      | .ok v => pure (.ok (dialMount, v))

/-- Source function `Nfs.filename`. -/
def Nfs.filename (env : Env) (n : Nfs) (target : Target) (i : CDNItemUnit) :
    M (GoString × Option Error) := do
  let loc := i.Locator
  let shard ← orAbort (sliceTo loc 3)
  match ← target.Mkdir env (Join [n.config.SubPath, shard]) 0o775 with
  | some err =>
    if !IsExist err then pure ([], WithStack (some err))
    else pure (Join [n.config.SubPath, shard, loc], none)
  | none => pure (Join [n.config.SubPath, shard, loc], none)

/-- Modelled from the spec: `AbstractUnit.ExistsInDatabase` is not among the sources. It is the
lookup `LookupBinding(itemID, unitID) -> ItemUnit | NotFound` of the metadata store. -/
def Nfs.ExistsInDatabase (env : Env) (_n : Nfs) (itemID : String) :
    M (Except Error CDNItemUnit) := do
  match env.ExistsInDatabase itemID with
  | .error err =>
    emit (.ExistsInDatabase itemID (some err))
    pure (.error err)
  | .ok iu =>
    emit (.ExistsInDatabase itemID none)
    pure (.ok iu)

/-- Source function `Nfs.ItemExists`. The two deferred calls run, `target.Close` first, after
the result is computed. -/
def Nfs.ItemExists (env : Env) (n : Nfs) (i : CDNItem) : M (Bool × Option Error) := do
  match ← n.Connect env with
  | .error err => pure (false, some err)
  | .ok (dial, target) =>
    let res ← (do
      match ← n.ExistsInDatabase env i.ID with
      | .error err =>
        if ErrorIs err .ErrNotFound then pure (false, none)
        else pure (false, some err)
      | .ok iu =>
        match ← n.filename env target iu with
        | (_, some err) => pure (false, some err)
        | (path, none) =>
          match ← target.Lookup env path with
          | .error err => pure (false, WithStack (some err))
          | .ok finfo => pure (finfo.Name != "", none))
    let _ ← target.Close env
    let _ ← dial.Close env
    pure res

/-- Source function `Nfs.Remove`. -/
def Nfs.Remove (env : Env) (n : Nfs) (i : CDNItemUnit) : M (Option Error) := do
  match ← n.Connect env with
  | .error err => pure (some err)
  | .ok (dial, target) =>
    let res ← (do
      match ← n.filename env target i with
      | (_, some err) => pure (some err)
      | (path, none) =>
        logDebug "remove" path
        match ← target.Remove env path with
        | some err =>
          if IsNotExist err then pure (some Error.ErrNotFound)
          else pure (WithStack (some err))
        | none => pure none)
    let _ ← target.Close env
    let _ ← dial.Close env
    pure res

/-- Source function `Nfs.NewReader`: the handle (`none` for a nil `io.ReadCloser`) and the error. -/
def Nfs.NewReader (env : Env) (n : Nfs) (i : CDNItemUnit) :
    M (Option Reader × Option Error) := do
  match ← n.Connect env with
  | .error err => pure (none, some err)
  | .ok (dial, target) =>
    match ← n.filename env target i with
    | (_, some err) => pure (none, WithStack (some err))
    | (path, none) =>
      logDebug "reading from" path
      let (f, err) ← target.Open env path
      let nfsReader : Reader := { dialMount := dial, target := target, reader := f }
      pure (some nfsReader, WithStack err)

/-- Source function `Nfs.NewWriter`: the handle (`none` for a nil `io.WriteCloser`) and the
error. -/
def Nfs.NewWriter (env : Env) (n : Nfs) (i : CDNItemUnit) :
    M (Option Writer × Option Error) := do
  match ← n.Connect env with
  | .error err => pure (none, some err)
  | .ok (dial, target) =>
    match ← n.filename env target i with
    | (_, some err) => pure (none, some err)
    | (path, none) =>
      logDebug "writing to" path
      let (f, err) ← target.OpenFile env path 0o640
      match err with
      | some err => pure (none, WithStack (some err))
      | none => pure (some { dialMount := dial, target := target, writer := f }, none)

/-- Source function `Nfs.Init`: the driver after the call and the error. -/
def Nfs.Init (env : Env) (n : Nfs) (cfg : Config) : M (Nfs × Option Error) := do
  match cfg with
  | .other typeName => pure (n, WithStack (some (.errorf ("invalid configuration: " ++ typeName))))
  | .nfs ptr =>
    let config ← orAbort ptr
    let n : Nfs := { config := config, ConvergentEncryption := encryptionNew config.Encryption }
    match ← n.Connect env with
    | .error err => pure (n, some err)
    | .ok (_, target) =>
      match ← target.Mkdir env config.SubPath 0o700 with
      | some err =>
        if !IsExist err then pure (n, some (WrapError err "unable to create subpath"))
        else pure (n, none)
      | none => pure (n, none)

/-! ## Vocabulary of the statements -/

/-- Whether an event is a log line rather than a call to a collaborator. -/
def Event.isLog : Event → Bool
  | .LogError _ => true
  | .LogDebug _ _ => true
  | _ => false

/-- The environment `env` with the three release steps set to return `e1` (content stream),
`e2` (mount target) and `e3` (dial mount). -/
def Env.withClose (env : Env) (e1 e2 e3 : Option Error) : Env :=
  { env with FileClose := fun _ => e1, TargetClose := e2, MountClose := e3 }

/-- Whether an event is one of the three calls of `Connect`. -/
def Event.isConnect : Event → Bool
  | .DialMount _ _ => true
  | .Hostname _ => true
  | .Mount _ _ _ _ _ => true
  | _ => false

/-- A path element that `Clean` keeps as it is: it holds no separator and is none of the empty
element, `.` and `..`. -/
def IsName (e : GoString) : Prop := '/' ∉ e ∧ e ≠ [] ∧ e ≠ ['.'] ∧ e ≠ ['.', '.']

/-- What `filename` returns for the outcome `mk` of creating the shard directory. -/
def filenameResult (path : GoString) : Option Error → GoString × Option Error
  | none => (path, none)
  | some err => if IsExist err then (path, none) else ([], WithStack (some err))

/-- What `Remove` returns for the outcome `re` of deleting the object. -/
def removeResult : Option Error → Option Error
  | none => none
  | some err => if IsNotExist err then some .ErrNotFound else WithStack (some err)

/-- Modelled from the spec: the function that computes Locators is not among the sources. A
Locator is the hex-encoded content hash of an item (a "content-addressing hash", "hex-encoded
hashes"), with at least the 3 characters of the shard prefix. -/
def IsLocator (loc : GoString) : Prop :=
  3 ≤ loc.length ∧ ∀ c ∈ loc, c ∈ "0123456789abcdefABCDEF".toList

namespace Example

/-- A binding of item `item-1` in the NFS unit. -/
def itemUnit : CDNItemUnit := ⟨"iu-1", "item-1", "unit-nfs", "abcdef".toList⟩

/-- An environment with a reachable server on which calls succeed, except that a path with
something below it cannot be deleted; a lookup reports the empty name, as the file attributes
of the NFS client do; the metadata store knows `item-1`. -/
def env : Env where
  DialMount := fun _ _ => none
  Hostname := fun _ => .ok "worker-1"
  Mount := fun _ _ => none
  Mkdir := fun _ _ => none
  Lookup := fun _ _ => none
  Remove := fun w p =>
    if w.entries.any (fun q => (p ++ ['/']).isPrefixOf q) then
      some (.backend "directory not empty")
    else none
  Open := fun _ _ => none
  OpenFile := fun _ _ => none
  FileClose := fun _ => none
  TargetClose := none
  MountClose := none
  Name := fun _ _ => ""
  ExistsInDatabase := fun id =>
    if id = "item-1" then .ok itemUnit else .error .ErrNotFound

/-- The same environment with an unreachable NFS server. -/
def unreachable : Env := { env with DialMount := fun _ _ => some (.backend "connection refused") }

/-- The same environment with a volume on which nothing can be deleted. -/
def readOnly : Env := { env with Remove := fun _ _ => some (.backend "permission denied") }

/-- A configured driver. -/
def nfs : Nfs := ⟨⟨[]⟩, ⟨"nfs.example", "/export", 1000, 1000, "cds".toList, []⟩⟩

/-- A volume that holds the object of `itemUnit`. -/
def world : World := ⟨["cds/abc/abcdef".toList, "cds/abc".toList, "cds".toList], []⟩

/-- A volume that holds the root subpath only. -/
def emptyWorld : World := ⟨["cds".toList], []⟩

end Example

/-! ## Closing a handle -/

/-- C1: for a `Reader` and for a `Writer`, whatever the three release steps return (`e1` for the
content stream, `e2` for the mount target, `e3` for the dial mount), `Close` returns, with its
stack, the error of the first step in that order that failed, and it returns nil exactly when
the three steps succeed. -/
theorem close_returns_first_error (env : Env) (e1 e2 e3 : Option Error) (dial : Mount)
    (target : Target) (f : File) (w : World) :
    (∃ ret w', Reader.Close (env.withClose e1 e2 e3) ⟨dial, target, some f⟩ w = some (ret, w') ∧
      ret = WithStack (e1 <|> e2 <|> e3) ∧
      (ret = none ↔ e1 = none ∧ e2 = none ∧ e3 = none)) ∧
    (∃ ret w', Writer.Close (env.withClose e1 e2 e3) ⟨dial, target, some f⟩ w = some (ret, w') ∧
      ret = WithStack (e1 <|> e2 <|> e3) ∧
      (ret = none ↔ e1 = none ∧ e2 = none ∧ e3 = none)) := by
  constructor <;>
  · rcases e1 with _ | a <;> rcases e2 with _ | b <;> rcases e3 with _ | c <;>
      simp [Reader.Close, Writer.Close, File.Close, Target.Close, Mount.Close, emit, logError,
        bind, pure, Env.withClose, WithStack] <;>
      first
        | (cases a <;> simp [WithStack])
        | (cases b <;> simp [WithStack])
        | (cases c <;> simp [WithStack])

/-- C2: for a `Reader` and for a `Writer`, whatever the three release steps return, `Close`
calls each of them exactly once, the content stream first, then the mount target, then the dial
mount, and touches nothing else; when only the stream fails (with `a`), the mount target and the
dial mount are still closed and `Close` returns the error of the stream. -/
theorem close_invokes_every_step_in_order (env : Env) (e1 e2 e3 : Option Error) (a : Error)
    (dial : Mount) (target : Target) (f : File) (w : World) :
    (∃ ret evs, Reader.Close (env.withClose e1 e2 e3) ⟨dial, target, some f⟩ w =
        some (ret, { w with trace := w.trace ++ evs }) ∧
      evs.filter (fun e => !e.isLog) = [.FileClose f.path e1, .TargetClose e2, .MountClose e3]) ∧
    (∃ ret evs, Writer.Close (env.withClose e1 e2 e3) ⟨dial, target, some f⟩ w =
        some (ret, { w with trace := w.trace ++ evs }) ∧
      evs.filter (fun e => !e.isLog) = [.FileClose f.path e1, .TargetClose e2, .MountClose e3]) ∧
    (∃ evs, Reader.Close (env.withClose (some a) none none) ⟨dial, target, some f⟩ w =
        some (WithStack (some a), { w with trace := w.trace ++ evs }) ∧
      Event.TargetClose none ∈ evs ∧ Event.MountClose none ∈ evs) ∧
    (∃ evs, Writer.Close (env.withClose (some a) none none) ⟨dial, target, some f⟩ w =
        some (WithStack (some a), { w with trace := w.trace ++ evs }) ∧
      Event.TargetClose none ∈ evs ∧ Event.MountClose none ∈ evs) := by
  refine ⟨?_, ?_, ?_, ?_⟩
  · rcases e1 with _ | a <;> rcases e2 with _ | b <;> rcases e3 with _ | c <;>
      simp only [Reader.Close, File.Close, Target.Close, Mount.Close, emit, logError,
        bind, pure, Env.withClose, List.append_assoc, List.singleton_append, List.cons_append,
        List.nil_append, reduceIte, reduceCtorEq] <;>
      exact ⟨_, _, rfl, rfl⟩
  · rcases e1 with _ | a <;> rcases e2 with _ | b <;> rcases e3 with _ | c <;>
      simp only [Writer.Close, File.Close, Target.Close, Mount.Close, emit, logError,
        bind, pure, Env.withClose, List.append_assoc, List.singleton_append, List.cons_append,
        List.nil_append, reduceIte, reduceCtorEq] <;>
      exact ⟨_, _, rfl, rfl⟩
  · simp only [Reader.Close, File.Close, Target.Close, Mount.Close, emit, logError,
        bind, pure, Env.withClose, List.append_assoc, List.singleton_append, List.cons_append,
        List.nil_append, reduceIte, reduceCtorEq]
    exact ⟨_, rfl, by simp, by simp⟩
  · simp only [Writer.Close, File.Close, Target.Close, Mount.Close, emit, logError,
        bind, pure, Env.withClose, List.append_assoc, List.singleton_append, List.cons_append,
        List.nil_append, reduceIte, reduceCtorEq]
    exact ⟨_, rfl, by simp, by simp⟩
/-! ## Paths -/

theorem splitSep_ne_nil (s : GoString) : splitSep s ≠ [] := by
  cases s with
  | nil => simp [splitSep]
  | cons c cs =>
    unfold splitSep
    split
    · simp
    · split <;> simp

theorem splitSep_append_sep (s t : GoString) :
    splitSep (s ++ '/' :: t) = splitSep s ++ splitSep t := by
  induction s with
  | nil => simp [splitSep]
  | cons c cs ih =>
    by_cases hc : c = '/'
    · simp [splitSep, hc, ih]
    · have hcs := splitSep_ne_nil cs
      cases hsp : splitSep cs with
      | nil => exact absurd hsp hcs
      | cons e es => simp [splitSep, hc, ih, hsp]

theorem splitSep_of_no_sep (t : GoString) (h : '/' ∉ t) : splitSep t = [t] := by
  induction t with
  | nil => simp [splitSep]
  | cons c cs ih =>
    have hc : c ≠ '/' := fun hc => h (by simp [hc])
    have hcs : '/' ∉ cs := fun hcs => h (List.mem_cons_of_mem _ hcs)
    simp [splitSep, hc, ih hcs]

theorem cleanStep_name (rooted : Bool) (out : List GoString) (e : GoString) (he : IsName e) :
    cleanStep rooted out e = e :: out := by
  obtain ⟨_, h1, h2, h3⟩ := he
  simp [cleanStep, h1, h2, h3]

theorem joinSep_snoc (xs : List GoString) (x e : GoString) :
    joinSep ((x :: xs) ++ [e]) = joinSep (x :: xs) ++ '/' :: e := by
  induction xs generalizing x with
  | nil => simp [joinSep]
  | cons y ys ih =>
    have := ih y
    simp only [List.cons_append] at this ⊢
    simp [joinSep, this]

theorem joinSep_snoc_ne_nil (xs : List GoString) (e : GoString) (he : e ≠ []) :
    joinSep (xs ++ [e]) ≠ [] := by
  cases xs with
  | nil => simpa [joinSep] using he
  | cons x xs => rw [joinSep_snoc]; simp

theorem head?_append_of_ne_nil (p q : GoString) (hp : p ≠ []) : (p ++ q).head? = p.head? := by
  cases p with
  | nil => exact absurd rfl hp
  | cons c cs => rfl

/-- Appending a name to a path whose last element is a name appends it to the cleaned path. -/
theorem Clean_append_name (p e1 e2 : GoString) (h1 : IsName e1) (h2 : IsName e2) :
    Clean ((p ++ '/' :: e1) ++ '/' :: e2) = Clean (p ++ '/' :: e1) ++ '/' :: e2 := by
  have hne : p ++ '/' :: e1 ≠ [] := by simp
  have hne2 : (p ++ '/' :: e1) ++ '/' :: e2 ≠ [] := by simp
  have hhead : ((p ++ '/' :: e1) ++ '/' :: e2).head? = (p ++ '/' :: e1).head? :=
    head?_append_of_ne_nil _ _ hne
  unfold Clean
  rw [if_neg hne, if_neg hne2]
  simp only [hhead]
  rw [splitSep_append_sep (p ++ '/' :: e1) e2, splitSep_append_sep p e1,
    splitSep_of_no_sep e1 h1.1, splitSep_of_no_sep e2 h2.1]
  simp only [List.foldl_append, List.foldl_cons, List.foldl_nil, cleanStep_name _ _ _ h1,
    cleanStep_name _ _ _ h2, List.reverse_cons]
  generalize (List.foldl (cleanStep ((p ++ '/' :: e1).head? == some '/')) [] (splitSep p)).reverse = S
  have hb1 : joinSep (S ++ [e1]) ≠ [] := joinSep_snoc_ne_nil S e1 h1.2.1
  have hb2 : joinSep (S ++ [e1] ++ [e2]) ≠ [] := joinSep_snoc_ne_nil _ e2 h2.2.1
  have hj : joinSep (S ++ [e1] ++ [e2]) = joinSep (S ++ [e1]) ++ '/' :: e2 := by
    cases S with
    | nil => simp [joinSep]
    | cons x xs =>
      have := joinSep_snoc (xs ++ [e1]) x e2
      simpa using this
  have hassoc : S ++ [e1] ++ [e2] = S ++ [e1, e2] := by simp
  rw [hassoc] at hb2 hj
  split
  · simp [hj]
  · simp [hb1, hb2, hj]

/-- A path ending in a name is cleaned into a path ending in that name, after a separator
unless the name is all there is. -/
theorem Clean_ends_in_name (p e : GoString) (he : IsName e) :
    ∃ root, Clean (p ++ '/' :: e) = root ++ e ∧ (root = [] ∨ root.getLast? = some '/') := by
  have hne : p ++ '/' :: e ≠ [] := by simp
  unfold Clean
  rw [if_neg hne, splitSep_append_sep p e, splitSep_of_no_sep e he.1]
  simp only [List.foldl_append, List.foldl_cons, List.foldl_nil, cleanStep_name _ _ _ he,
    List.reverse_cons]
  generalize (List.foldl (cleanStep ((p ++ '/' :: e).head? == some '/')) [] (splitSep p)).reverse = S
  have hb : joinSep (S ++ [e]) ≠ [] := joinSep_snoc_ne_nil S e he.2.1
  have hj : ∃ r, joinSep (S ++ [e]) = r ++ e ∧ (r = [] ∨ r.getLast? = some '/') := by
    cases S with
    | nil => exact ⟨[], by simp [joinSep], Or.inl rfl⟩
    | cons x xs =>
      refine ⟨joinSep (x :: xs) ++ ['/'], ?_, Or.inr (by simp)⟩
      rw [joinSep_snoc]; simp
  obtain ⟨r, hr, hr'⟩ := hj
  split
  · refine ⟨'/' :: r, by simp [hr], Or.inr ?_⟩
    rcases hr' with h | h
    · simp [h]
    · cases r with
      | nil => simp at h
      | cons c cs => simpa [List.getLast?_cons_cons] using h
  · exact ⟨r, by simp [hb, hr], hr'⟩

theorem Clean_name (e : GoString) (he : IsName e) : Clean e = e := by
  obtain ⟨h0, h1, h2, h3⟩ := he
  have hhead : (e.head? == some '/') = false := by
    cases e with
    | nil => exact absurd rfl h1
    | cons c cs =>
      have : c ≠ '/' := fun hc => h0 (by simp [hc])
      simp [this]
  unfold Clean
  rw [if_neg h1, splitSep_of_no_sep e h0]
  simp [hhead, cleanStep, h1, h2, h3, joinSep]

/-- The first three bytes of a string that holds no separator are a name. -/
theorem IsName_of_sliceTo (loc shard : GoString) (hshard : sliceTo loc 3 = some shard)
    (hsep : '/' ∉ loc) : IsName shard ∧ IsName loc ∧ shard = loc.take 3 := by
  unfold sliceTo at hshard
  split at hshard
  · rename_i hlen
    simp only [Option.some.injEq] at hshard
    subst hshard
    have hlen3 : (loc.take 3).length = 3 := by simp [List.length_take]; omega
    refine ⟨⟨fun h => hsep (List.mem_of_mem_take h), ?_, ?_, ?_⟩, ⟨hsep, ?_, ?_, ?_⟩, rfl⟩
    · intro h; rw [h] at hlen3; simp at hlen3
    · intro h; rw [h] at hlen3; simp at hlen3
    · intro h; rw [h] at hlen3; simp at hlen3
    · intro h; rw [h] at hlen; simp at hlen
    · intro h; rw [h] at hlen; simp at hlen
    · intro h; rw [h] at hlen; simp at hlen
  · simp at hshard

/-- Layout of the object path for a Locator without separator: the shard directory, a
separator, the Locator; the shard directory ends in the shard. -/
theorem Join_layout (sub loc shard : GoString) (hshard : sliceTo loc 3 = some shard)
    (hsep : '/' ∉ loc) :
    Join [sub, shard, loc] = Join [sub, shard] ++ '/' :: loc ∧
    ∃ root, Join [sub, shard] = root ++ shard ∧ (root = [] ∨ root.getLast? = some '/') := by
  obtain ⟨hs, hl, _⟩ := IsName_of_sliceTo loc shard hshard hsep
  have hsne : shard ≠ [] := hs.2.1
  cases sub with
  | nil =>
    have hhead : ((shard ++ '/' :: loc).head? == some '/') = false := by
      cases shard with
      | nil => exact absurd rfl hsne
      | cons d ds =>
        have : d ≠ '/' := fun hd => hs.1 (by simp [hd])
        simp [this]
    have h1 : Join [[], shard, loc] = shard ++ '/' :: loc := by
      have hne : shard ++ '/' :: loc ≠ [] := by simp
      simp only [Join, List.dropWhile, decide_True, hsne, decide_False, joinSep, Clean, if_neg hne,
        hhead, splitSep_append_sep, splitSep_of_no_sep shard hs.1, splitSep_of_no_sep loc hl.1]
      simp [cleanStep_name _ _ _ hs, cleanStep_name _ _ _ hl, joinSep]
    have h2 : Join [[], shard] = shard := by
      simp only [Join, List.dropWhile, decide_True, hsne, decide_False, joinSep]
      exact Clean_name shard hs
    rw [h1, h2]
    exact ⟨rfl, [], rfl, Or.inl rfl⟩
  | cons c cs =>
    have h1 : Join [c :: cs, shard, loc] = Clean (((c :: cs) ++ '/' :: shard) ++ '/' :: loc) := by
      simp [Join, joinSep]
    have h2 : Join [c :: cs, shard] = Clean ((c :: cs) ++ '/' :: shard) := by
      simp [Join, joinSep]
    rw [h1, h2]
    exact ⟨Clean_append_name _ _ _ hs hl, Clean_ends_in_name _ _ hs⟩

/-- A Locator holds no separator and has its 3-byte prefix. -/
theorem IsLocator_slice (loc : GoString) (hloc : IsLocator loc) :
    '/' ∉ loc ∧ sliceTo loc 3 = some (loc.take 3) := by
  obtain ⟨hlen, hhex⟩ := hloc
  refine ⟨fun h => ?_, by simp [sliceTo, hlen]⟩
  have := hhex _ h
  revert this
  decide

/-! ## Running the driver -/

theorem bind_run {α β : Type} (m : M α) (f : α → M β) (w : World) :
    (m >>= f) w = match m w with
      | none => none
      | some (a, w') => f a w' := rfl

theorem pure_run {α : Type} (a : α) (w : World) : (pure a : M α) w = some (a, w) := rfl

theorem DialMount_run (env : Env) (host : String) (w : World) :
    ∃ r e, DialMount env host w = some (r, { w with trace := w.trace ++ [.DialMount host e] }) := by
  unfold DialMount
  split
  · exact ⟨_, _, rfl⟩
  · exact ⟨_, _, rfl⟩

theorem Hostname_run (env : Env) (w : World) :
    ∃ r e, Hostname env w = some (r, { w with trace := w.trace ++ [.Hostname e] }) := by
  unfold Hostname
  split
  · exact ⟨_, _, rfl⟩
  · exact ⟨_, _, rfl⟩

theorem mount_run (env : Env) (m : Mount) (p h : String) (u g : Nat) (w : World) :
    ∃ r e, m.mount env p h u g w = some (r, { w with trace := w.trace ++ [.Mount p h u g e] }) := by
  unfold Mount.mount
  split
  · exact ⟨_, _, rfl⟩
  · exact ⟨_, _, rfl⟩

theorem Connect_run (env : Env) (n : Nfs) (w : World) :
    ∃ r evs, Nfs.Connect env n w = some (r, { w with trace := w.trace ++ evs }) ∧
      (∀ e ∈ evs, e.isConnect = true) := by
  obtain ⟨r1, e1, h1⟩ := DialMount_run env n.config.Host w
  simp only [Nfs.Connect, bind_run, h1]
  cases r1 with
  | error err => exact ⟨_, [.DialMount n.config.Host e1], rfl, by simp [Event.isConnect]⟩
  | ok dial =>
    obtain ⟨r2, e2, h2⟩ :=
      Hostname_run env { w with trace := w.trace ++ [.DialMount n.config.Host e1] }
    dsimp only at h2 ⊢
    simp only [bind_run, h2]
    cases r2 with
    | error err =>
      exact ⟨.error (WrapError err "unable to get hostname"),
        [.DialMount n.config.Host e1, .Hostname e2], by simp [pure_run],
        by simp [Event.isConnect]⟩
    | ok hn =>
      obtain ⟨r3, e3, h3⟩ := mount_run env dial n.config.TargetPartition hn n.config.UserID
        n.config.GroupID
        { w with trace := w.trace ++ [.DialMount n.config.Host e1] ++ [.Hostname e2] }
      dsimp only at h3 ⊢
      simp only [bind_run, h3]
      cases r3 with
      | error err =>
        exact ⟨.error (WrapError err ("unable to mount volume " ++ n.config.TargetPartition)),
          [.DialMount n.config.Host e1, .Hostname e2,
          .Mount n.config.TargetPartition hn n.config.UserID n.config.GroupID e3],
          by simp [pure_run], by simp [Event.isConnect]⟩
      | ok t =>
        exact ⟨.ok (dial, t), [.DialMount n.config.Host e1, .Hostname e2,
          .Mount n.config.TargetPartition hn n.config.UserID n.config.GroupID e3],
          by simp [pure_run], by simp [Event.isConnect]⟩

theorem Mkdir_run (env : Env) (t : Target) (p : GoString) (m : Nat) (w : World) :
    ∃ mk, Target.Mkdir env t p m w =
        some (mk, { entries := if mk = none then p :: w.entries else w.entries,
                    trace := w.trace ++ [.Mkdir p m mk] }) ∧
      mk = env.mkdirErr w p := by
  unfold Target.Mkdir
  cases h : env.mkdirErr w p with
  | none => exact ⟨none, by simp, rfl⟩
  | some e => exact ⟨some e, by simp, rfl⟩

theorem Remove_run (env : Env) (t : Target) (p : GoString) (w : World) :
    ∃ e, Target.Remove env t p w =
      some (e, { entries := if e = none then w.entries.filter (fun q => q ≠ p) else w.entries,
                 trace := w.trace ++ [.Remove p e] }) := by
  unfold Target.Remove
  cases h : w.missingErr (env.Remove w p) p with
  | none => exact ⟨none, by simp⟩
  | some e => exact ⟨some e, by simp⟩

theorem missingErr_none (w : World) (fault : Option Error) (p : GoString)
    (h : w.missingErr fault p = none) : p ∈ w.entries := by
  unfold World.missingErr at h
  split at h
  · simp at h
  · by_contra hp
    simp [hp] at h

theorem Lookup_run (env : Env) (t : Target) (p : GoString) (w : World) :
    (∃ e, Target.Lookup env t p w =
      some (.error e, { w with trace := w.trace ++ [.Lookup p (some e)] })) ∨
    (p ∈ w.entries ∧ Target.Lookup env t p w =
      some (.ok ⟨env.Name w p⟩, { w with trace := w.trace ++ [.Lookup p none] })) := by
  unfold Target.Lookup
  cases h : w.missingErr (env.Lookup w p) p with
  | none => exact Or.inr ⟨missingErr_none _ _ _ h, rfl⟩
  | some e => exact Or.inl ⟨e, rfl⟩

theorem Open_run (env : Env) (t : Target) (p : GoString) (w : World) :
    (∃ e, Target.Open env t p w =
      some ((none, some e), { w with trace := w.trace ++ [.Open p (some e)] })) ∨
    (p ∈ w.entries ∧ Target.Open env t p w =
      some ((some ⟨p⟩, none), { w with trace := w.trace ++ [.Open p none] })) := by
  unfold Target.Open
  cases h : w.missingErr (env.Open w p) p with
  | none => exact Or.inr ⟨missingErr_none _ _ _ h, rfl⟩
  | some e => exact Or.inl ⟨e, rfl⟩

theorem OpenFile_run (env : Env) (t : Target) (p : GoString) (m : Nat) (w : World) :
    (∃ e, Target.OpenFile env t p m w =
      some ((none, some e), { w with trace := w.trace ++ [.OpenFile p m (some e)] })) ∨
    (Target.OpenFile env t p m w =
      some ((some ⟨p⟩, none), { entries := if p ∈ w.entries then w.entries else p :: w.entries,
                                trace := w.trace ++ [.OpenFile p m none] })) := by
  unfold Target.OpenFile
  cases h : env.OpenFile w p with
  | none => exact Or.inr rfl
  | some e => exact Or.inl ⟨e, rfl⟩

theorem filename_run (env : Env) (n : Nfs) (t : Target) (i : CDNItemUnit) (w : World)
    (shard : GoString) (hshard : sliceTo i.Locator 3 = some shard) :
    ∃ mk, Nfs.filename env n t i w =
        some (filenameResult (Join [n.config.SubPath, shard, i.Locator]) mk,
          { entries := if mk = none then Join [n.config.SubPath, shard] :: w.entries
                       else w.entries,
            trace := w.trace ++ [.Mkdir (Join [n.config.SubPath, shard]) 0o775 mk] }) ∧
      mk = env.mkdirErr w (Join [n.config.SubPath, shard]) := by
  obtain ⟨mk, hmk, hmk'⟩ := Mkdir_run env t (Join [n.config.SubPath, shard]) 0o775 w
  refine ⟨mk, ?_, hmk'⟩
  simp only [Nfs.filename, hshard, orAbort, bind_run, pure_run, hmk]
  cases mk with
  | none => rfl
  | some err =>
    cases hx : IsExist err <;> simp [filenameResult, hx, pure_run]

theorem filename_abort (env : Env) (n : Nfs) (t : Target) (i : CDNItemUnit) (w : World)
    (hshard : sliceTo i.Locator 3 = none) : Nfs.filename env n t i w = none := by
  simp only [Nfs.filename, hshard, orAbort, bind_run, abort]

theorem WithStack_some_ne_none (e : Error) : WithStack (some e) ≠ none := by
  cases e <;> simp [WithStack]

/-- The courses `Remove` can take: the connection fails; the Locator has no 3-byte prefix;
the shard directory cannot be created; the object is deleted or the deletion fails. -/
theorem Remove_cases (env : Env) (n : Nfs) (i : CDNItemUnit) (w : World) :
    (∃ err evs, (∀ e ∈ evs, e.isConnect = true) ∧
      Nfs.Remove env n i w = some (some err, { w with trace := w.trace ++ evs })) ∨
    (sliceTo i.Locator 3 = none ∧ Nfs.Remove env n i w = none) ∨
    (∃ shard evs mk, sliceTo i.Locator 3 = some shard ∧ (∀ e ∈ evs, e.isConnect = true) ∧
      (filenameResult (Join [n.config.SubPath, shard, i.Locator]) (some mk)).2 ≠ none ∧
      Nfs.Remove env n i w =
        some ((filenameResult (Join [n.config.SubPath, shard, i.Locator]) (some mk)).2,
          { w with trace := w.trace ++ evs ++
            [.Mkdir (Join [n.config.SubPath, shard]) 0o775 (some mk),
             .TargetClose env.TargetClose, .MountClose env.MountClose] })) ∨
    (∃ shard evs mk re, sliceTo i.Locator 3 = some shard ∧ (∀ e ∈ evs, e.isConnect = true) ∧
      (filenameResult (Join [n.config.SubPath, shard, i.Locator]) mk).2 = none ∧
      Nfs.Remove env n i w =
        some (removeResult re,
          { entries :=
              if re = none then
                (if mk = none then Join [n.config.SubPath, shard] :: w.entries
                 else w.entries).filter (fun q => q ≠ Join [n.config.SubPath, shard, i.Locator])
              else (if mk = none then Join [n.config.SubPath, shard] :: w.entries
                    else w.entries),
            trace := w.trace ++ evs ++
              [.Mkdir (Join [n.config.SubPath, shard]) 0o775 mk,
               .LogDebug "remove" (Join [n.config.SubPath, shard, i.Locator]),
               .Remove (Join [n.config.SubPath, shard, i.Locator]) re,
               .TargetClose env.TargetClose, .MountClose env.MountClose] })) := by
  obtain ⟨r, evs, hc, hev⟩ := Connect_run env n w
  cases r with
  | error err =>
    left
    exact ⟨err, evs, hev, by simp only [Nfs.Remove, bind_run, hc, pure_run]⟩
  | ok dt =>
    obtain ⟨dial, target⟩ := dt
    right
    cases hs : sliceTo i.Locator 3 with
    | none =>
      left
      refine ⟨rfl, ?_⟩
      simp only [Nfs.Remove, bind_run, hc, filename_abort env n target i _ hs]
    | some shard =>
      right
      obtain ⟨mk, hf, -⟩ := filename_run env n target i { w with trace := w.trace ++ evs } shard hs
      dsimp only at hf
      cases hres : filenameResult (Join [n.config.SubPath, shard, i.Locator]) mk with
      | mk path ferr =>
        cases ferr with
        | some fe =>
          left
          cases mk with
          | none => simp [filenameResult] at hres
          | some mke =>
            refine ⟨shard, evs, mke, rfl, hev, by simp [hres], ?_⟩
            simp only [Nfs.Remove, bind_run, hc, hf, hres, pure_run, Target.Close, Mount.Close,
              emit, reduceCtorEq, reduceIte]
            simp
        | none =>
          right
          have hpath : path = Join [n.config.SubPath, shard, i.Locator] := by
            cases mk with
            | none => simp [filenameResult] at hres; exact hres.symm
            | some mke =>
              simp only [filenameResult] at hres
              split at hres
              · simp at hres; exact hres.symm
              · simp at hres
                exact absurd hres.2 (WithStack_some_ne_none mke)
          subst hpath
          obtain ⟨re, hre⟩ := Remove_run env target (Join [n.config.SubPath, shard, i.Locator])
            { entries := if mk = none then Join [n.config.SubPath, shard] :: w.entries
                         else w.entries,
              trace := w.trace ++ evs ++ [.Mkdir (Join [n.config.SubPath, shard]) 0o775 mk] ++
                [.LogDebug "remove" (Join [n.config.SubPath, shard, i.Locator])] }
          dsimp only at hre
          refine ⟨shard, evs, mk, re, rfl, hev, by simp [hres], ?_⟩
          simp only [Nfs.Remove, bind_run, hc, hf, hres, pure_run, Target.Close, Mount.Close,
            emit, logDebug, hre]
          cases re with
          | none => simp [removeResult]
          | some e => cases hx : IsNotExist e <;> simp [removeResult, hx, pure_run]

theorem sliceTo_eq_some (s shard : GoString) (n : Nat) (h : sliceTo s n = some shard) :
    shard = s.take n ∧ n ≤ s.length := by
  unfold sliceTo at h
  split at h
  · simp at h; exact ⟨h.symm, by assumption⟩
  · simp at h

/-- After `Remove` returned nil the Locator has its 3-byte prefix and the object path is gone
from the volume. -/
theorem Remove_nil_inv (env : Env) (n : Nfs) (i : CDNItemUnit) (w w' : World)
    (h : Nfs.Remove env n i w = some (none, w')) :
    ∃ shard, sliceTo i.Locator 3 = some shard ∧
      Join [n.config.SubPath, shard, i.Locator] ∉ w'.entries := by
  rcases Remove_cases env n i w with ⟨err, evs, -, hr⟩ | ⟨-, hr⟩ | ⟨shard, evs, mk, -, -, hne, hr⟩ |
      ⟨shard, evs, mk, re, hs, -, -, hr⟩
  · rw [hr] at h; simp at h
  · rw [hr] at h; simp at h
  · rw [hr] at h
    simp only [Option.some.injEq, Prod.mk.injEq] at h
    exact absurd h.1 hne
  · rw [hr] at h
    simp only [Option.some.injEq, Prod.mk.injEq] at h
    obtain ⟨hret, hw⟩ := h
    cases re with
    | some e =>
      simp only [removeResult] at hret
      split at hret
      · simp at hret
      · exact absurd hret (WithStack_some_ne_none e)
    | none =>
      refine ⟨shard, hs, ?_⟩
      rw [← hw]
      simp

theorem ExistsInDatabase_error (env : Env) (n : Nfs) (id : String) (w : World) (e : Error)
    (h : env.ExistsInDatabase id = .error e) :
    n.ExistsInDatabase env id w =
      some (.error e, { w with trace := w.trace ++ [.ExistsInDatabase id (some e)] }) := by
  simp only [Nfs.ExistsInDatabase, h, bind_run, emit, pure_run]

theorem ExistsInDatabase_ok (env : Env) (n : Nfs) (id : String) (w : World) (iu : CDNItemUnit)
    (h : env.ExistsInDatabase id = .ok iu) :
    n.ExistsInDatabase env id w =
      some (.ok iu, { w with trace := w.trace ++ [.ExistsInDatabase id none] }) := by
  simp only [Nfs.ExistsInDatabase, h, bind_run, emit, pure_run]

/-- The courses `ItemExists` can take: the connection fails; the metadata store has no binding
or fails; the Locator of the binding has no 3-byte prefix; the shard directory cannot be
created; the lookup of the object fails; the lookup succeeds. -/
theorem ItemExists_cases (env : Env) (n : Nfs) (i : CDNItem) (w : World) :
    (∃ err evs, (∀ e ∈ evs, e.isConnect = true) ∧
      Nfs.ItemExists env n i w = some ((false, some err), { w with trace := w.trace ++ evs })) ∨
    (∃ e evs, env.ExistsInDatabase i.ID = .error e ∧ (∀ e ∈ evs, e.isConnect = true) ∧
      Nfs.ItemExists env n i w =
        some ((false, if ErrorIs e .ErrNotFound then none else some e),
          { w with trace := w.trace ++ evs ++
            [.ExistsInDatabase i.ID (some e), .TargetClose env.TargetClose,
             .MountClose env.MountClose] })) ∨
    (∃ iu, env.ExistsInDatabase i.ID = .ok iu ∧ sliceTo iu.Locator 3 = none ∧
      Nfs.ItemExists env n i w = none) ∨
    (∃ iu shard evs mk ferr, env.ExistsInDatabase i.ID = .ok iu ∧
      sliceTo iu.Locator 3 = some shard ∧ (∀ e ∈ evs, e.isConnect = true) ∧
      Nfs.ItemExists env n i w =
        some ((false, some ferr),
          { w with trace := w.trace ++ evs ++
            [.ExistsInDatabase i.ID none,
             .Mkdir (Join [n.config.SubPath, shard]) 0o775 (some mk),
             .TargetClose env.TargetClose, .MountClose env.MountClose] })) ∨
    (∃ iu shard evs mk e, env.ExistsInDatabase i.ID = .ok iu ∧
      sliceTo iu.Locator 3 = some shard ∧ (∀ e ∈ evs, e.isConnect = true) ∧
      Nfs.ItemExists env n i w =
        some ((false, WithStack (some e)),
          { entries := if mk = none then Join [n.config.SubPath, shard] :: w.entries
                       else w.entries,
            trace := w.trace ++ evs ++
              [.ExistsInDatabase i.ID none,
               .Mkdir (Join [n.config.SubPath, shard]) 0o775 mk,
               .Lookup (Join [n.config.SubPath, shard, iu.Locator]) (some e),
               .TargetClose env.TargetClose, .MountClose env.MountClose] })) ∨
    (∃ iu shard evs mk b, env.ExistsInDatabase i.ID = .ok iu ∧
      sliceTo iu.Locator 3 = some shard ∧ (∀ e ∈ evs, e.isConnect = true) ∧
      Join [n.config.SubPath, shard, iu.Locator] ∈
        (if mk = none then Join [n.config.SubPath, shard] :: w.entries else w.entries) ∧
      Nfs.ItemExists env n i w =
        some ((b, none),
          { entries := if mk = none then Join [n.config.SubPath, shard] :: w.entries
                       else w.entries,
            trace := w.trace ++ evs ++
              [.ExistsInDatabase i.ID none,
               .Mkdir (Join [n.config.SubPath, shard]) 0o775 mk,
               .Lookup (Join [n.config.SubPath, shard, iu.Locator]) none,
               .TargetClose env.TargetClose, .MountClose env.MountClose] })) := by
  obtain ⟨r, evs, hc, hev⟩ := Connect_run env n w
  cases r with
  | error err =>
    left
    exact ⟨err, evs, hev, by simp only [Nfs.ItemExists, bind_run, hc, pure_run]⟩
  | ok dt =>
    obtain ⟨dial, target⟩ := dt
    right
    cases hdb : env.ExistsInDatabase i.ID with
    | error e =>
      left
      refine ⟨e, evs, rfl, hev, ?_⟩
      simp only [Nfs.ItemExists, bind_run, hc, ExistsInDatabase_error env n i.ID _ e hdb,
        pure_run, Target.Close, Mount.Close, emit]
      cases hx : ErrorIs e .ErrNotFound <;> simp [pure_run]
    | ok iu =>
      right
      have hdb' := ExistsInDatabase_ok env n i.ID { w with trace := w.trace ++ evs } iu hdb
      dsimp only at hdb'
      cases hs : sliceTo iu.Locator 3 with
      | none =>
        left
        refine ⟨iu, rfl, hs, ?_⟩
        simp only [Nfs.ItemExists, bind_run, hc, hdb', filename_abort env n target iu _ hs]
      | some shard =>
        right
        obtain ⟨mk, hf, -⟩ := filename_run env n target iu
          { w with trace := w.trace ++ evs ++ [.ExistsInDatabase i.ID none] } shard hs
        dsimp only at hf
        cases hres : filenameResult (Join [n.config.SubPath, shard, iu.Locator]) mk with
        | mk path ferr =>
          cases ferr with
          | some fe =>
            left
            cases mk with
            | none => simp [filenameResult] at hres
            | some mke =>
              refine ⟨iu, shard, evs, mke, fe, rfl, hs, hev, ?_⟩
              simp only [Nfs.ItemExists, bind_run, hc, hdb', hf, hres, pure_run, Target.Close,
                Mount.Close, emit, reduceCtorEq, reduceIte]
              simp
          | none =>
            right
            have hpath : path = Join [n.config.SubPath, shard, iu.Locator] := by
              cases mk with
              | none => simp [filenameResult] at hres; exact hres.symm
              | some mke =>
                simp only [filenameResult] at hres
                split at hres
                · simp at hres; exact hres.symm
                · simp at hres
                  exact absurd hres.2 (WithStack_some_ne_none mke)
            subst hpath
            rcases Lookup_run env target (Join [n.config.SubPath, shard, iu.Locator])
              { entries := if mk = none then Join [n.config.SubPath, shard] :: w.entries
                           else w.entries,
                trace := w.trace ++ evs ++ [.ExistsInDatabase i.ID none] ++
                  [.Mkdir (Join [n.config.SubPath, shard]) 0o775 mk] } with ⟨e, hl⟩ | ⟨hin, hl⟩
            · left
              dsimp only at hl
              refine ⟨iu, shard, evs, mk, e, rfl, hs, hev, ?_⟩
              simp only [Nfs.ItemExists, bind_run, hc, hdb', hf, hres, pure_run, Target.Close,
                Mount.Close, emit, hl]
              simp
            · right
              dsimp only at hl hin
              refine ⟨iu, shard, evs, mk,
                (env.Name
                  { entries := if mk = none then Join [n.config.SubPath, shard] :: w.entries
                               else w.entries,
                    trace := w.trace ++ evs ++ [.ExistsInDatabase i.ID none] ++
                      [.Mkdir (Join [n.config.SubPath, shard]) 0o775 mk] }
                  (Join [n.config.SubPath, shard, iu.Locator]) != ""),
                rfl, hs, hev, hin, ?_⟩
              simp only [Nfs.ItemExists, bind_run, hc, hdb', hf, hres, pure_run, Target.Close,
                Mount.Close, emit, hl]
              simp

theorem length_ne_of_append_cons (a b : GoString) (c : Char) : a ++ c :: b ≠ a := by
  intro h
  have := congrArg List.length h
  simp at this

/-- The courses `NewWriter` can take once the connection is established and the Locator has
its 3-byte prefix `shard`, for the outcome `mk` of creating the shard directory. -/
theorem NewWriter_run (env : Env) (n : Nfs) (i : CDNItemUnit) (w w1 : World)
    (shard : GoString) (dial : Mount) (target : Target)
    (hshard : sliceTo i.Locator 3 = some shard)
    (hconn : Nfs.Connect env n w = some (.ok (dial, target), w1)) :
    ∃ mk, mk = env.mkdirErr w1 (Join [n.config.SubPath, shard]) ∧
      Nfs.filename env n target i w1 =
        some (filenameResult (Join [n.config.SubPath, shard, i.Locator]) mk,
          { entries := if mk = none then Join [n.config.SubPath, shard] :: w1.entries
                       else w1.entries,
            trace := w1.trace ++ [.Mkdir (Join [n.config.SubPath, shard]) 0o775 mk] }) ∧
      ((∃ e, mk = some e ∧ IsExist e = false ∧
          Nfs.NewWriter env n i w =
            some ((none, WithStack (some e)),
              { w1 with trace := w1.trace ++
                [.Mkdir (Join [n.config.SubPath, shard]) 0o775 mk] })) ∨
       ((mk = none ∨ ∃ e, mk = some e ∧ IsExist e = true) ∧
          ((∃ x, Nfs.NewWriter env n i w =
              some ((none, WithStack (some x)),
                { entries := if mk = none then Join [n.config.SubPath, shard] :: w1.entries
                             else w1.entries,
                  trace := w1.trace ++
                    [.Mkdir (Join [n.config.SubPath, shard]) 0o775 mk,
                     .LogDebug "writing to" (Join [n.config.SubPath, shard, i.Locator]),
                     .OpenFile (Join [n.config.SubPath, shard, i.Locator]) 0o640 (some x)] })) ∨
           (∃ es, Join [n.config.SubPath, shard, i.Locator] ∈ es ∧
              (mk = none → Join [n.config.SubPath, shard] ∈ es) ∧
              Nfs.NewWriter env n i w =
              some ((some ⟨dial, target, some ⟨Join [n.config.SubPath, shard, i.Locator]⟩⟩, none),
                { entries := es,
                  trace := w1.trace ++
                    [.Mkdir (Join [n.config.SubPath, shard]) 0o775 mk,
                     .LogDebug "writing to" (Join [n.config.SubPath, shard, i.Locator]),
                     .OpenFile (Join [n.config.SubPath, shard, i.Locator]) 0o640 none] }))))) := by
  obtain ⟨mk, hf, hmk⟩ := filename_run env n target i w1 shard hshard
  refine ⟨mk, hmk, hf, ?_⟩
  have hgood : ∀ (hres : filenameResult (Join [n.config.SubPath, shard, i.Locator]) mk =
      (Join [n.config.SubPath, shard, i.Locator], none)),
      ((∃ x, Nfs.NewWriter env n i w =
              some ((none, WithStack (some x)),
                { entries := if mk = none then Join [n.config.SubPath, shard] :: w1.entries
                             else w1.entries,
                  trace := w1.trace ++
                    [.Mkdir (Join [n.config.SubPath, shard]) 0o775 mk,
                     .LogDebug "writing to" (Join [n.config.SubPath, shard, i.Locator]),
                     .OpenFile (Join [n.config.SubPath, shard, i.Locator]) 0o640 (some x)] })) ∨
           (∃ es, Join [n.config.SubPath, shard, i.Locator] ∈ es ∧
              (mk = none → Join [n.config.SubPath, shard] ∈ es) ∧
              Nfs.NewWriter env n i w =
              some ((some ⟨dial, target, some ⟨Join [n.config.SubPath, shard, i.Locator]⟩⟩, none),
                { entries := es,
                  trace := w1.trace ++
                    [.Mkdir (Join [n.config.SubPath, shard]) 0o775 mk,
                     .LogDebug "writing to" (Join [n.config.SubPath, shard, i.Locator]),
                     .OpenFile (Join [n.config.SubPath, shard, i.Locator]) 0o640 none] }))) := by
    intro hres
    rcases OpenFile_run env target (Join [n.config.SubPath, shard, i.Locator]) 0o640
      { entries := if mk = none then Join [n.config.SubPath, shard] :: w1.entries
                   else w1.entries,
        trace := w1.trace ++ [.Mkdir (Join [n.config.SubPath, shard]) 0o775 mk] ++
          [.LogDebug "writing to" (Join [n.config.SubPath, shard, i.Locator])] }
      with ⟨x, ho⟩ | ho
    · left
      dsimp only at ho
      refine ⟨x, ?_⟩
      simp only [Nfs.NewWriter, bind_run, hconn, hf, hres, pure_run, logDebug, emit, ho]
      simp
    · right
      dsimp only at ho
      refine ⟨if Join [n.config.SubPath, shard, i.Locator] ∈
            (if mk = none then Join [n.config.SubPath, shard] :: w1.entries else w1.entries)
          then (if mk = none then Join [n.config.SubPath, shard] :: w1.entries else w1.entries)
          else Join [n.config.SubPath, shard, i.Locator] ::
            (if mk = none then Join [n.config.SubPath, shard] :: w1.entries else w1.entries),
        ?_, ?_, ?_⟩
      · split_ifs <;> simp_all
      · intro hnone
        subst hnone
        split_ifs <;> simp_all
      · simp only [Nfs.NewWriter, bind_run, hconn, hf, hres, pure_run, logDebug, emit, ho]
        simp
  cases mk with
  | none => exact Or.inr ⟨Or.inl rfl, hgood rfl⟩
  | some e =>
    cases hx : IsExist e with
    | true =>
      refine Or.inr ⟨Or.inr ⟨e, rfl, hx⟩, hgood ?_⟩
      simp [filenameResult, hx]
    | false =>
      refine Or.inl ⟨e, rfl, hx, ?_⟩
      have hres : filenameResult (Join [n.config.SubPath, shard, i.Locator]) (some e) =
          ([], WithStack (some e)) := by simp [filenameResult, hx]
      cases hws : WithStack (some e) with
      | none => exact absurd hws (WithStack_some_ne_none e)
      | some se =>
        rw [hws] at hres
        simp only [Nfs.NewWriter, bind_run, hconn, hf, hres, pure_run]
        simp

/-- The courses `NewReader` can take once the connection is established and the Locator has
its 3-byte prefix `shard`: the shard directory cannot be created and no handle is returned; or
the file is opened and a handle is returned whatever the outcome, with a nil stream and an
error when opening failed. -/
theorem NewReader_run (env : Env) (n : Nfs) (i : CDNItemUnit) (w w1 : World)
    (shard : GoString) (dial : Mount) (target : Target)
    (hshard : sliceTo i.Locator 3 = some shard)
    (hconn : Nfs.Connect env n w = some (.ok (dial, target), w1)) :
    (∃ e w', IsExist e = false ∧
      Nfs.NewReader env n i w = some ((none, WithStack (some e)), w')) ∨
    (∃ e w', Nfs.NewReader env n i w =
      some ((some ⟨dial, target, none⟩, WithStack (some e)), w')) ∨
    (∃ w', Nfs.NewReader env n i w =
      some ((some ⟨dial, target, some ⟨Join [n.config.SubPath, shard, i.Locator]⟩⟩, none),
        w')) := by
  obtain ⟨mk, hf, -⟩ := filename_run env n target i w1 shard hshard
  have hgood : ∀ (hres : filenameResult (Join [n.config.SubPath, shard, i.Locator]) mk =
      (Join [n.config.SubPath, shard, i.Locator], none)),
      (∃ e w', Nfs.NewReader env n i w =
        some ((some ⟨dial, target, none⟩, WithStack (some e)), w')) ∨
      (∃ w', Nfs.NewReader env n i w =
        some ((some ⟨dial, target, some ⟨Join [n.config.SubPath, shard, i.Locator]⟩⟩, none),
          w')) := by
    intro hres
    rcases Open_run env target (Join [n.config.SubPath, shard, i.Locator])
      { entries := if mk = none then Join [n.config.SubPath, shard] :: w1.entries
                   else w1.entries,
        trace := w1.trace ++ [.Mkdir (Join [n.config.SubPath, shard]) 0o775 mk] ++
          [.LogDebug "reading from" (Join [n.config.SubPath, shard, i.Locator])] }
      with ⟨x, ho⟩ | ⟨-, ho⟩
    · left
      dsimp only at ho
      refine ⟨x,
        { entries := if mk = none then Join [n.config.SubPath, shard] :: w1.entries
                     else w1.entries,
          trace := w1.trace ++ [.Mkdir (Join [n.config.SubPath, shard]) 0o775 mk] ++
            [.LogDebug "reading from" (Join [n.config.SubPath, shard, i.Locator])] ++
            [.Open (Join [n.config.SubPath, shard, i.Locator]) (some x)] }, ?_⟩
      simp only [Nfs.NewReader, bind_run, hconn, hf, hres, pure_run, logDebug, emit, ho]
    · right
      dsimp only at ho
      refine ⟨{ entries := if mk = none then Join [n.config.SubPath, shard] :: w1.entries
                           else w1.entries,
                trace := w1.trace ++ [.Mkdir (Join [n.config.SubPath, shard]) 0o775 mk] ++
                  [.LogDebug "reading from" (Join [n.config.SubPath, shard, i.Locator])] ++
                  [.Open (Join [n.config.SubPath, shard, i.Locator]) none] }, ?_⟩
      simp only [Nfs.NewReader, bind_run, hconn, hf, hres, pure_run, logDebug, emit, ho]
      rfl
  cases mk with
  | none => exact Or.inr (hgood rfl)
  | some e =>
    cases hx : IsExist e with
    | true => exact Or.inr (hgood (by simp [filenameResult, hx]))
    | false =>
      refine Or.inl ⟨e,
        { w1 with trace := w1.trace ++ [.Mkdir (Join [n.config.SubPath, shard]) 0o775 (some e)] },
        hx, ?_⟩
      have hres : filenameResult (Join [n.config.SubPath, shard, i.Locator]) (some e) =
          ([], WithStack (some e)) := by simp [filenameResult, hx]
      cases hws : WithStack (some e) with
      | none => exact absurd hws (WithStack_some_ne_none e)
      | some se =>
        rw [hws] at hres
        have hidem : WithStack (some se) = some se := by
          cases e <;> simp [WithStack] at hws <;> subst hws <;> rfl
        simp only [Nfs.NewReader, bind_run, hconn, hf, hres, pure_run, hidem]
        simp
/-! ## The object path -/

/-- C3: for every configured root subpath and every Locator, with `dir` the join of the root
subpath and the first 3 characters of the Locator, `filename` creates `dir` with mode 0775 on
the backend and, when that call returns nil or an `os.IsExist` error, resolves the path
`Join [SubPath, first 3 characters, Locator]` with a nil error (any other error of the call is
returned, with no path); the resolved path is `dir`, a separator and the Locator itself, and
the last element of `dir` is exactly the first 3 characters of the Locator. -/
theorem filename_layout (env : Env) (n : Nfs) (target : Target) (i : CDNItemUnit) (w : World)
    (hloc : IsLocator i.Locator) :
    (∃ mk w2,
      Target.Mkdir env target (Join [n.config.SubPath, i.Locator.take 3]) 0o775 w =
        some (mk, w2) ∧
      ((mk = none ∨ ∃ e, mk = some e ∧ IsExist e = true) →
        Nfs.filename env n target i w =
          some ((Join [n.config.SubPath, i.Locator.take 3, i.Locator], none), w2)) ∧
      (∀ e, mk = some e → IsExist e = false →
        Nfs.filename env n target i w = some (([], WithStack (some e)), w2))) ∧
    Join [n.config.SubPath, i.Locator.take 3, i.Locator] =
      Join [n.config.SubPath, i.Locator.take 3] ++ '/' :: i.Locator ∧
    (i.Locator.take 3).length = 3 ∧ '/' ∉ i.Locator.take 3 ∧
    ∃ root, Join [n.config.SubPath, i.Locator.take 3] = root ++ i.Locator.take 3 ∧
      (root = [] ∨ root.getLast? = some '/') := by
  obtain ⟨hsep, hshard⟩ := IsLocator_slice i.Locator hloc
  obtain ⟨hlay, hroot⟩ := Join_layout n.config.SubPath i.Locator _ hshard hsep
  obtain ⟨mk, hmkdir, hmk⟩ :=
    Mkdir_run env target (Join [n.config.SubPath, i.Locator.take 3]) 0o775 w
  obtain ⟨mk', hf, hmk'⟩ := filename_run env n target i w _ hshard
  have hsame : mk' = mk := by rw [hmk, hmk']
  subst hsame
  refine ⟨⟨mk', _, hmkdir, ?_, ?_⟩, hlay, ?_, (IsName_of_sliceTo _ _ hshard hsep).1.1, hroot⟩
  · rintro (hnone | ⟨e, he, hx⟩)
    · subst hnone; rw [hf]; rfl
    · subst he; rw [hf]; simp [filenameResult, hx]
  · intro e he hx
    subst he
    rw [hf]
    simp [filenameResult, hx]
  · have := hloc.1
    simp [List.length_take]
    omega

/-- Witness: the Locator `abcdef` under the root subpath `cds`, on a volume where the shard
directory is there: `filename` resolves `cds/abc/abcdef`. -/
theorem filename_layout_witness :
    IsLocator Example.itemUnit.Locator ∧
    (∃ w2, Nfs.filename Example.env Example.nfs ⟨"/export"⟩ Example.itemUnit Example.world =
      some (("cds/abc/abcdef".toList, none), w2)) ∧
    Join [Example.nfs.config.SubPath, Example.itemUnit.Locator.take 3,
        Example.itemUnit.Locator] =
      Join [Example.nfs.config.SubPath, Example.itemUnit.Locator.take 3] ++
        '/' :: Example.itemUnit.Locator :=
  ⟨⟨by decide, by decide⟩, ⟨_, rfl⟩,
    (filename_layout Example.env Example.nfs ⟨"/export"⟩ Example.itemUnit Example.world
      ⟨by decide, by decide⟩).2.1⟩

/-! ## `ItemExists` -/

/-- C4: `ItemExists` returns true only if the metadata store returned a binding for the item
and the lookup of the sharded path of that binding succeeded on the backend, where the path
is; it then returns no error. -/
theorem ItemExists_true_needs_binding_and_object (env : Env) (n : Nfs) (i : CDNItem)
    (w w' : World) (err : Option Error)
    (h : Nfs.ItemExists env n i w = some ((true, err), w')) :
    err = none ∧
    ∃ iu evs, env.ExistsInDatabase i.ID = .ok iu ∧ w'.trace = w.trace ++ evs ∧
      Event.ExistsInDatabase i.ID none ∈ evs ∧
      Event.Lookup (Join [n.config.SubPath, iu.Locator.take 3, iu.Locator]) none ∈ evs ∧
      Join [n.config.SubPath, iu.Locator.take 3, iu.Locator] ∈ w'.entries := by
  rcases ItemExists_cases env n i w with ⟨e, evs, -, hr⟩ | ⟨e, evs, -, -, hr⟩ | ⟨iu, -, -, hr⟩ |
      ⟨iu, shard, evs, mk, fe, -, -, -, hr⟩ | ⟨iu, shard, evs, mk, e, -, -, -, hr⟩ |
      ⟨iu, shard, evs, mk, b, hdb, hs, -, hin, hr⟩
  · rw [hr] at h; simp at h
  · rw [hr] at h; simp at h
  · rw [hr] at h; simp at h
  · rw [hr] at h; simp at h
  · rw [hr] at h; simp at h
  · obtain ⟨hshard, -⟩ := sliceTo_eq_some _ _ _ hs
    subst hshard
    rw [hr] at h
    simp only [Option.some.injEq, Prod.mk.injEq] at h
    obtain ⟨⟨-, herr⟩, hw⟩ := h
    refine ⟨herr.symm, iu, _, hdb, by rw [← hw, List.append_assoc], by simp, by simp, ?_⟩
    rw [← hw]
    exact hin

/-- Witness: the item `item-1`, bound and stored, in an environment whose lookups report a
name; `ItemExists` tests the reported name against the empty string, so it answers true in
such an environment only. -/
theorem ItemExists_true_needs_binding_and_object_witness :
    (∃ w', Nfs.ItemExists { Example.env with Name := fun _ _ => "abcdef" } Example.nfs
        ⟨"item-1"⟩ Example.world = some ((true, none), w')) ∧
    ∃ iu, Example.env.ExistsInDatabase "item-1" = .ok iu :=
  ⟨⟨_, rfl⟩,
    let ⟨_, iu, _, h, _⟩ := ItemExists_true_needs_binding_and_object
      { Example.env with Name := fun _ _ => "abcdef" } Example.nfs ⟨"item-1"⟩ Example.world _
      none
      (rfl : Nfs.ItemExists { Example.env with Name := fun _ _ => "abcdef" } Example.nfs
        ⟨"item-1"⟩ Example.world = some (_, _))
    ⟨iu, h⟩⟩

/-- C5, counterexample: the metadata store has no binding for `item-9` and reports not-found,
but the NFS server is unreachable: `ItemExists` returns an error, and the only call it makes is
to the backend; the metadata store is not consulted. -/
theorem ItemExists_connects_before_metadata :
    Nfs.ItemExists Example.unreachable Example.nfs ⟨"item-9"⟩ Example.world =
      some ((false, some (.wrap (.backend "connection refused") "unable to dial mount")),
        { Example.world with
          trace := [.DialMount "nfs.example" (some (.backend "connection refused"))] }) ∧
    Example.unreachable.ExistsInDatabase "item-9" = .error .ErrNotFound :=
  ⟨rfl, rfl⟩

/-- C5, amended: for every item whose metadata lookup reports not-found, `ItemExists` first
connects to the backend; when the connection is established it consults the metadata store and
returns false and no error, and apart from the connection, the lookup in the metadata store
and the release of the connection it makes no call (nothing is created or looked up on the
volume); when the connection fails it returns false and the connection error without
consulting the metadata store. -/
theorem ItemExists_without_binding (env : Env) (n : Nfs) (i : CDNItem) (w : World) (e : Error)
    (hdb : env.ExistsInDatabase i.ID = .error e) (hnf : ErrorIs e .ErrNotFound = true) :
    ∃ r evs, Nfs.Connect env n w = some (r, { w with trace := w.trace ++ evs }) ∧
      (∀ ev ∈ evs, ev.isConnect = true) ∧
      Nfs.ItemExists env n i w =
        match r with
        | .error err => some ((false, some err), { w with trace := w.trace ++ evs })
        | .ok _ => some ((false, none),
            { w with trace := w.trace ++ evs ++
              [.ExistsInDatabase i.ID (some e), .TargetClose env.TargetClose,
               .MountClose env.MountClose] }) := by
  obtain ⟨r, evs, hc, hev⟩ := Connect_run env n w
  refine ⟨r, evs, hc, hev, ?_⟩
  cases r with
  | error err => simp only [Nfs.ItemExists, bind_run, hc, pure_run]
  | ok dt =>
    obtain ⟨dial, target⟩ := dt
    simp only [Nfs.ItemExists, bind_run, hc, ExistsInDatabase_error env n i.ID _ e hdb,
      pure_run, Target.Close, Mount.Close, emit, hnf]
    simp

/-- Witness: the item `item-9`, unknown to the metadata store. -/
theorem ItemExists_without_binding_witness :
    Example.env.ExistsInDatabase (CDNItem.mk "item-9").ID = .error .ErrNotFound ∧
    ErrorIs .ErrNotFound .ErrNotFound = true ∧
    ∃ r evs, Nfs.Connect Example.env Example.nfs Example.world =
      some (r, { Example.world with trace := Example.world.trace ++ evs }) :=
  ⟨rfl, rfl,
    let ⟨r, evs, h, _⟩ := ItemExists_without_binding Example.env Example.nfs ⟨"item-9"⟩
      Example.world .ErrNotFound rfl rfl
    ⟨r, evs, h⟩⟩

/-! ## `Remove` -/

/-- C6: for an ItemUnit whose Locator has its 3-byte prefix `shard`, `Remove` returns, and in
one of three ways. The connection fails and its error is returned. Or the shard directory
cannot be created and that error is returned. Or the object
`Join [SubPath, shard, Locator]` is deleted on the backend, and the result `re` of that call
decides: nil gives nil, an error for which `os.IsNotExist` holds gives `sdk.ErrNotFound`, any
other error is returned with its stack and is not nil. So `Remove` returns nil only when the
delete was made and succeeded, the object then being gone from the volume. -/
theorem Remove_maps_not_exist_to_not_found (env : Env) (n : Nfs) (i : CDNItemUnit)
    (w : World) (shard : GoString) (hshard : sliceTo i.Locator 3 = some shard) :
    ∃ ret w', Nfs.Remove env n i w = some (ret, w') ∧
      ((∃ err, Nfs.Connect env n w = some (.error err, w') ∧ ret = some err) ∨
       (∃ dial target w1 e w2, Nfs.Connect env n w = some (.ok (dial, target), w1) ∧
          Nfs.filename env n target i w1 = some (([], some e), w2) ∧ ret = some e) ∨
       (∃ dial target w1 w2 re w3, Nfs.Connect env n w = some (.ok (dial, target), w1) ∧
          Nfs.filename env n target i w1 =
            some ((Join [n.config.SubPath, shard, i.Locator], none), w2) ∧
          Target.Remove env target (Join [n.config.SubPath, shard, i.Locator])
              { w2 with trace := w2.trace ++
                [.LogDebug "remove" (Join [n.config.SubPath, shard, i.Locator])] } =
            some (re, w3) ∧
          w' = { w3 with trace := w3.trace ++
            [.TargetClose env.TargetClose, .MountClose env.MountClose] } ∧
          ((re = none ∧ ret = none ∧
              Join [n.config.SubPath, shard, i.Locator] ∉ w'.entries) ∨
           (∃ e, re = some e ∧ IsNotExist e = true ∧ ret = some .ErrNotFound) ∨
           (∃ e, re = some e ∧ IsNotExist e = false ∧ ret = WithStack (some e) ∧
              ret ≠ none)))) := by
  obtain ⟨r, evs, hc, -⟩ := Connect_run env n w
  cases r with
  | error err =>
    exact ⟨some err, _, by simp only [Nfs.Remove, bind_run, hc, pure_run],
      Or.inl ⟨err, hc, rfl⟩⟩
  | ok dt =>
    obtain ⟨dial, target⟩ := dt
    obtain ⟨mk, hf, -⟩ := filename_run env n target i { w with trace := w.trace ++ evs }
      shard hshard
    dsimp only at hf
    cases hres : filenameResult (Join [n.config.SubPath, shard, i.Locator]) mk with
    | mk path ferr =>
      rw [hres] at hf
      cases ferr with
      | some fe =>
        have hpath : path = [] := by
          cases mk with
          | none => simp [filenameResult] at hres
          | some mke =>
            simp only [filenameResult] at hres
            split at hres
            · simp at hres
            · simp at hres; exact hres.1
        subst hpath
        have hrun : Nfs.Remove env n i w =
            some (some fe,
              { entries := if mk = none then Join [n.config.SubPath, shard] :: w.entries
                           else w.entries,
                trace := w.trace ++ evs ++
                  [.Mkdir (Join [n.config.SubPath, shard]) 0o775 mk] ++
                  [.TargetClose env.TargetClose] ++ [.MountClose env.MountClose] }) := by
          simp only [Nfs.Remove, bind_run, hc, hf, pure_run, Target.Close, Mount.Close, emit]
        exact ⟨some fe, _, hrun, Or.inr (Or.inl ⟨dial, target, _, fe, _, hc, hf, rfl⟩)⟩
      | none =>
        have hpath : path = Join [n.config.SubPath, shard, i.Locator] := by
          cases mk with
          | none => simp [filenameResult] at hres; exact hres.symm
          | some mke =>
            simp only [filenameResult] at hres
            split at hres
            · simp at hres; exact hres.symm
            · simp at hres
              exact absurd hres.2 (WithStack_some_ne_none mke)
        subst hpath
        obtain ⟨re, hre⟩ := Remove_run env target (Join [n.config.SubPath, shard, i.Locator])
          { entries := if mk = none then Join [n.config.SubPath, shard] :: w.entries
                       else w.entries,
            trace := w.trace ++ evs ++ [.Mkdir (Join [n.config.SubPath, shard]) 0o775 mk] ++
              [.LogDebug "remove" (Join [n.config.SubPath, shard, i.Locator])] }
        dsimp only at hre
        have hrun : Nfs.Remove env n i w =
            some (removeResult re,
              { entries :=
                  if re = none then
                    (if mk = none then Join [n.config.SubPath, shard] :: w.entries
                     else w.entries).filter
                      (fun q => q ≠ Join [n.config.SubPath, shard, i.Locator])
                  else (if mk = none then Join [n.config.SubPath, shard] :: w.entries
                        else w.entries),
                trace := w.trace ++ evs ++
                  [.Mkdir (Join [n.config.SubPath, shard]) 0o775 mk] ++
                  [.LogDebug "remove" (Join [n.config.SubPath, shard, i.Locator])] ++
                  [.Remove (Join [n.config.SubPath, shard, i.Locator]) re] ++
                  [.TargetClose env.TargetClose, .MountClose env.MountClose] }) := by
          simp only [Nfs.Remove, bind_run, hc, hf, pure_run, Target.Close, Mount.Close,
            emit, logDebug, hre]
          cases re with
          | none => simp [removeResult]
          | some e => cases hx : IsNotExist e <;> simp [removeResult, hx, pure_run]
        refine ⟨_, _, hrun, Or.inr (Or.inr ⟨dial, target, _, _, re, _, hc, hf, hre, rfl, ?_⟩)⟩
        cases re with
        | none => exact Or.inl ⟨rfl, rfl, by simp⟩
        | some e =>
          cases hx : IsNotExist e with
          | true => exact Or.inr (Or.inl ⟨e, rfl, hx, by simp [removeResult, hx]⟩)
          | false =>
            exact Or.inr (Or.inr ⟨e, rfl, hx, by simp [removeResult, hx],
              by simp [removeResult, hx, WithStack_some_ne_none]⟩)

/-- Witness: deleting the object of `item-1` where it is stored (nil), where it is absent
(`sdk.ErrNotFound`) and where nothing can be deleted (the error of the backend, with its
stack). -/
theorem Remove_maps_not_exist_to_not_found_witness :
    sliceTo Example.itemUnit.Locator 3 = some "abc".toList ∧
    (∃ w', Nfs.Remove Example.env Example.nfs Example.itemUnit Example.world =
      some (none, w') ∧ "cds/abc/abcdef".toList ∉ w'.entries) ∧
    (∃ w', Nfs.Remove Example.env Example.nfs Example.itemUnit Example.emptyWorld =
      some (some .ErrNotFound, w')) ∧
    (∃ w', Nfs.Remove Example.readOnly Example.nfs Example.itemUnit Example.world =
      some (some (.withStack (.backend "permission denied")), w')) ∧
    ∃ ret w', Nfs.Remove Example.env Example.nfs Example.itemUnit Example.emptyWorld =
      some (ret, w') := by
  refine ⟨by decide, ⟨_, rfl, by decide⟩, ⟨_, rfl⟩, ⟨_, rfl⟩, ?_⟩
  obtain ⟨ret, w', h, -⟩ := Remove_maps_not_exist_to_not_found Example.env Example.nfs
    Example.itemUnit Example.emptyWorld "abc".toList (by decide)
  exact ⟨ret, w', h⟩

/-- C7: for every ItemUnit, with a Locator, every item whose binding in the metadata store, if
any, carries that Locator, and every state of the backend: once `Remove` of the ItemUnit has
returned nil, the object having been deleted, `ItemExists` for the item in the resulting state
returns, its answer is false, and the object path is still absent from the volume. -/
theorem Remove_then_ItemExists (env : Env) (n : Nfs) (iu : CDNItemUnit) (i : CDNItem)
    (w w1 : World) (hloc : IsLocator iu.Locator)
    (hdb : ∀ iu', env.ExistsInDatabase i.ID = .ok iu' → iu'.Locator = iu.Locator)
    (hrm : Nfs.Remove env n iu w = some (none, w1)) :
    Join [n.config.SubPath, iu.Locator.take 3, iu.Locator] ∉ w1.entries ∧
    ∃ err w2, Nfs.ItemExists env n i w1 = some ((false, err), w2) ∧
      Join [n.config.SubPath, iu.Locator.take 3, iu.Locator] ∉ w2.entries := by
  obtain ⟨hsep, hs0⟩ := IsLocator_slice iu.Locator hloc
  obtain ⟨shard, hs, hgone⟩ := Remove_nil_inv env n iu w w1 hrm
  rw [hs0] at hs
  simp only [Option.some.injEq] at hs
  subst hs
  obtain ⟨hlay, -⟩ := Join_layout n.config.SubPath iu.Locator _ hs0 hsep
  have hne : Join [n.config.SubPath, iu.Locator.take 3, iu.Locator] ≠
      Join [n.config.SubPath, iu.Locator.take 3] := by
    rw [hlay]; exact length_ne_of_append_cons _ _ _
  have hkeep : ∀ mk : Option Error,
      Join [n.config.SubPath, iu.Locator.take 3, iu.Locator] ∉
        (if mk = none then Join [n.config.SubPath, iu.Locator.take 3] :: w1.entries
         else w1.entries) := by
    intro mk
    split
    · intro hin
      rcases List.mem_cons.mp hin with heq | hmem
      · exact hne heq
      · exact hgone hmem
    · exact hgone
  refine ⟨hgone, ?_⟩
  rcases ItemExists_cases env n i w1 with ⟨e, evs, -, hr⟩ | ⟨e, evs, -, -, hr⟩ |
      ⟨iu', hdb', hs', hr⟩ | ⟨iu', shard', evs, mk, fe, -, -, -, hr⟩ |
      ⟨iu', shard', evs, mk, e, hdb', hs', -, hr⟩ |
      ⟨iu', shard', evs, mk, b, hdb', hs', -, hin, hr⟩
  · exact ⟨_, _, hr, hgone⟩
  · exact ⟨_, _, hr, hgone⟩
  · rw [hdb iu' hdb', hs0] at hs'; simp at hs'
  · exact ⟨_, _, hr, hgone⟩
  · have hloc' := hdb iu' hdb'
    rw [hloc', hs0] at hs'
    simp only [Option.some.injEq] at hs'
    subst hs'
    exact ⟨_, _, hr, hkeep mk⟩
  · exfalso
    have hloc' := hdb iu' hdb'
    rw [hloc', hs0] at hs'
    simp only [Option.some.injEq] at hs'
    subst hs'
    rw [hloc'] at hin
    exact hkeep mk hin

/-- Witness: deleting the stored object of `item-1` and then asking whether the item exists;
the answer is false, with the error of the failed lookup. -/
theorem Remove_then_ItemExists_witness :
    IsLocator Example.itemUnit.Locator ∧
    (∃ w1 w2, Nfs.Remove Example.env Example.nfs Example.itemUnit Example.world =
        some (none, w1) ∧
      Nfs.ItemExists Example.env Example.nfs ⟨"item-1"⟩ w1 =
        some ((false, some (.withStack (.notExist "no such file or directory"))), w2)) ∧
    ∃ w1 err w2, Nfs.ItemExists Example.env Example.nfs ⟨"item-1"⟩ w1 =
      some ((false, err), w2) := by
  refine ⟨⟨by decide, by decide⟩, ⟨_, _, rfl, rfl⟩, ?_⟩
  obtain ⟨-, err, w2, h, -⟩ := Remove_then_ItemExists Example.env Example.nfs
    Example.itemUnit ⟨"item-1"⟩ Example.world _ ⟨by decide, by decide⟩
    (fun iu' h => (Except.ok.inj (h : Except.ok Example.itemUnit = Except.ok iu')) ▸ rfl)
    (rfl : Nfs.Remove Example.env Example.nfs Example.itemUnit Example.world = some (_, _))
  exact ⟨_, err, w2, h⟩

/-! ## `Init` -/

/-- C8: for a configuration value that is not a `*storage.NFSStorageConfiguration`, `Init`
returns an error and leaves the driver (its configuration and its encryption component) and the
world unchanged: no call is made, so no connection and no creation of the subpath. -/
theorem Init_rejects (env : Env) (n : Nfs) (typeName : String) (w : World) :
    ∃ err, Nfs.Init env n (.other typeName) w = some ((n, some err), w) := by
  exact ⟨_, rfl⟩

/-! ## `NewWriter` and `NewReader` -/

/-- C9: for an ItemUnit with `shard` the first 3 bytes of its Locator, once `NewWriter` is
connected it creates the shard directory `Join [SubPath, shard]` with mode 0775 on the backend;
unless that call fails on its own, an absent directory is created and a directory that is there
gives an `os.IsExist` error and leaves the volume as it is. When the result `mk` of the call is
nil or an `os.IsExist` error, `filename` resolves `Join [SubPath, shard, Locator]` with a nil
error and `NewWriter` opens that path on the backend with mode 0640: it returns a writer on it
when the open succeeds and the error of the open, with no writer, otherwise. For any other
`mk`, and only then, `filename` fails, and `NewWriter` returns that error without opening
anything. -/
theorem NewWriter_shard_directory_idempotent (env : Env) (n : Nfs) (i : CDNItemUnit)
    (w w1 : World) (shard : GoString) (dial : Mount) (target : Target)
    (hshard : sliceTo i.Locator 3 = some shard)
    (hconn : Nfs.Connect env n w = some (.ok (dial, target), w1)) :
    ∃ mk w2,
      Target.Mkdir env target (Join [n.config.SubPath, shard]) 0o775 w1 = some (mk, w2) ∧
      (env.Mkdir w1 (Join [n.config.SubPath, shard]) = none →
        (Join [n.config.SubPath, shard] ∉ w1.entries →
          mk = none ∧ Join [n.config.SubPath, shard] ∈ w2.entries) ∧
        (Join [n.config.SubPath, shard] ∈ w1.entries →
          (∃ e, mk = some e ∧ IsExist e = true) ∧ w2.entries = w1.entries)) ∧
      (∀ e, mk = some e → IsExist e = false →
        Nfs.filename env n target i w1 = some (([], WithStack (some e)), w2) ∧
        Nfs.NewWriter env n i w = some ((none, WithStack (some e)), w2)) ∧
      ((mk = none ∨ ∃ e, mk = some e ∧ IsExist e = true) →
        Nfs.filename env n target i w1 =
          some ((Join [n.config.SubPath, shard, i.Locator], none), w2) ∧
        ∃ f oe w3,
          Target.OpenFile env target (Join [n.config.SubPath, shard, i.Locator]) 0o640
              { w2 with trace := w2.trace ++
                [.LogDebug "writing to" (Join [n.config.SubPath, shard, i.Locator])] } =
            some ((f, oe), w3) ∧
          ((oe = none ∧ f = some ⟨Join [n.config.SubPath, shard, i.Locator]⟩ ∧
              Nfs.NewWriter env n i w =
                some ((some ⟨dial, target,
                  some ⟨Join [n.config.SubPath, shard, i.Locator]⟩⟩, none), w3)) ∨
           (∃ x, oe = some x ∧
              Nfs.NewWriter env n i w = some ((none, WithStack (some x)), w3)))) := by
  obtain ⟨mk, hmkdir, hmk⟩ := Mkdir_run env target (Join [n.config.SubPath, shard]) 0o775 w1
  obtain ⟨mk', hf, hmk'⟩ := filename_run env n target i w1 shard hshard
  have hsame : mk' = mk := by rw [hmk, hmk']
  subst hsame
  refine ⟨mk', _, hmkdir, ?_, ?_, ?_⟩
  · intro hfault
    have hval : mk' = if Join [n.config.SubPath, shard] ∈ w1.entries
        then some (.exist "file exists") else none := by
      rw [hmk]; simp only [Env.mkdirErr, hfault]
    constructor
    · intro habs
      have hnone : mk' = none := by rw [hval]; simp [habs]
      exact ⟨hnone, by simp [hnone]⟩
    · intro hin
      have hsome : mk' = some (.exist "file exists") := by rw [hval]; simp [hin]
      exact ⟨⟨_, hsome, rfl⟩, by simp [hsome]⟩
  · intro e he hx
    subst he
    have hres : filenameResult (Join [n.config.SubPath, shard, i.Locator]) (some e) =
        ([], WithStack (some e)) := by simp [filenameResult, hx]
    rw [hres] at hf
    refine ⟨hf, ?_⟩
    cases hws : WithStack (some e) with
    | none => exact absurd hws (WithStack_some_ne_none e)
    | some se =>
      rw [hws] at hf
      simp only [Nfs.NewWriter, bind_run, hconn, hf, pure_run]
  · intro hok
    have hres : filenameResult (Join [n.config.SubPath, shard, i.Locator]) mk' =
        (Join [n.config.SubPath, shard, i.Locator], none) := by
      rcases hok with hnone | ⟨e, he, hx⟩
      · subst hnone; rfl
      · subst he; simp [filenameResult, hx]
    rw [hres] at hf
    refine ⟨hf, ?_⟩
    rcases OpenFile_run env target (Join [n.config.SubPath, shard, i.Locator]) 0o640
      { entries := if mk' = none then Join [n.config.SubPath, shard] :: w1.entries
                   else w1.entries,
        trace := w1.trace ++ [.Mkdir (Join [n.config.SubPath, shard]) 0o775 mk'] ++
          [.LogDebug "writing to" (Join [n.config.SubPath, shard, i.Locator])] }
      with ⟨x, ho⟩ | ho
    · dsimp only at ho
      refine ⟨none, some x, _, ho, Or.inr ⟨x, rfl, ?_⟩⟩
      simp only [Nfs.NewWriter, bind_run, hconn, hf, pure_run, logDebug, emit, ho]
    · dsimp only at ho
      refine ⟨_, none, _, ho, Or.inl ⟨rfl, rfl, ?_⟩⟩
      simp only [Nfs.NewWriter, bind_run, hconn, hf, pure_run, logDebug, emit, ho]

/-- Witness: a writer for `item-1` on a volume where the shard directory `cds/abc` is already
there: the writer is opened on `cds/abc/abcdef`. -/
theorem NewWriter_shard_directory_idempotent_witness :
    sliceTo Example.itemUnit.Locator 3 = some "abc".toList ∧
    (∃ w1, Nfs.Connect Example.env Example.nfs Example.world =
      some (.ok (⟨"nfs.example"⟩, ⟨"/export"⟩), w1)) ∧
    (∃ w', Nfs.NewWriter Example.env Example.nfs Example.itemUnit Example.world =
      some ((some ⟨⟨"nfs.example"⟩, ⟨"/export"⟩, some ⟨"cds/abc/abcdef".toList⟩⟩, none),
        w') ∧
      Event.Mkdir "cds/abc".toList 0o775 (some (.exist "file exists")) ∈ w'.trace ∧
      Event.OpenFile "cds/abc/abcdef".toList 0o640 none ∈ w'.trace) ∧
    ∃ mk w1 w2, Target.Mkdir Example.env ⟨"/export"⟩ "cds/abc".toList 0o775 w1 =
      some (mk, w2) := by
  refine ⟨by decide, ⟨_, rfl⟩, ⟨_, rfl, by decide, by decide⟩, ?_⟩
  obtain ⟨mk, w2, h, -⟩ := NewWriter_shard_directory_idempotent Example.env
    Example.nfs Example.itemUnit Example.world _ "abc".toList ⟨"nfs.example"⟩ ⟨"/export"⟩
    (by decide)
    (rfl : Nfs.Connect Example.env Example.nfs Example.world = some (_, _))
  exact ⟨mk, _, w2, h⟩

/-- The handle and the error of `NewWriter` exclude each other: a writer with a content stream
and a nil error, or no writer and an error. -/
theorem NewWriter_handle_or_error (env : Env) (n : Nfs) (i : CDNItemUnit) (w w' : World)
    (h : Option Writer) (err : Option Error)
    (hw : Nfs.NewWriter env n i w = some ((h, err), w')) :
    (h = none ∧ err ≠ none) ∨ (∃ d t f, h = some ⟨d, t, some f⟩ ∧ err = none) := by
  obtain ⟨r, evs, hc, -⟩ := Connect_run env n w
  cases r with
  | error e =>
    simp only [Nfs.NewWriter, bind_run, hc, pure_run, Option.some.injEq, Prod.mk.injEq] at hw
    obtain ⟨⟨h1, h2⟩, -⟩ := hw
    exact Or.inl ⟨h1.symm, by rw [← h2]; simp⟩
  | ok dt =>
    obtain ⟨dial, target⟩ := dt
    cases hs : sliceTo i.Locator 3 with
    | none =>
      simp only [Nfs.NewWriter, bind_run, hc, filename_abort env n target i _ hs] at hw
      simp at hw
    | some shard =>
      obtain ⟨mk, -, -, hcases⟩ := NewWriter_run env n i w _ shard dial target hs hc
      rcases hcases with ⟨e, -, -, hr⟩ | ⟨-, ⟨x, hr⟩ | ⟨es, -, -, hr⟩⟩
      · rw [hr] at hw
        simp only [Option.some.injEq, Prod.mk.injEq] at hw
        obtain ⟨⟨h1, h2⟩, -⟩ := hw
        exact Or.inl ⟨h1.symm, by rw [← h2]; exact WithStack_some_ne_none e⟩
      · rw [hr] at hw
        simp only [Option.some.injEq, Prod.mk.injEq] at hw
        obtain ⟨⟨h1, h2⟩, -⟩ := hw
        exact Or.inl ⟨h1.symm, by rw [← h2]; exact WithStack_some_ne_none x⟩
      · rw [hr] at hw
        simp only [Option.some.injEq, Prod.mk.injEq] at hw
        obtain ⟨⟨h1, h2⟩, -⟩ := hw
        exact Or.inr ⟨_, _, _, h1.symm, h2.symm⟩

/-- C10: on a volume that does not hold the object of `item-1`, opening the file fails and
`NewReader` returns both a handle, whose content stream is a nil file, and an error. -/
theorem NewReader_returns_handle_and_error :
    (Nfs.NewReader Example.env Example.nfs Example.itemUnit Example.emptyWorld).map
        (fun r => r.1) =
      some (some ⟨⟨"nfs.example"⟩, ⟨"/export"⟩, none⟩,
        some (.withStack (.notExist "no such file or directory"))) := by
  decide

end CDN
